import Mathlib

/-!
# tree-sitter runtime: the LR driver of `include/tree_sitter/parser.h`

A shallow embedding of the lexer cursor, the parse stack, the LR driving loop,
error recovery and stack breakdown of `parser.h`, with theorems about them.

Conventions of the embedding.

* `size_t` values are natural numbers; the two unsigned subtractions of
  `ts_lexer_build_node` and the decrement of `stack.size` wrap modulo `2^64`.
* A C pointer that may be `NULL` is an `Option`.
* A function with a loop takes a `fuel` argument and returns an `Option`:
  `none` means that the C function did not return within `fuel` iterations, or
  that it dereferenced `NULL` or read an uninitialised variable.
* Reference counts (`ts_tree_retain`, `ts_tree_release`) are not modelled: tree
  nodes are immutable values.
-/

namespace TreeSitter

/-! ## Symbols, states and trees -/

/-- The C type `ts_symbol` (an `int`). -/
abbrev ts_symbol := Int

/-- The C type `state_id` (`typedef int state_id`). -/
abbrev state_id := Int

/-- Modelled from the spec: the reserved `error` symbol of `runtime.h`, which is
not part of this source tree. The `STATE` macro of `parser.h` lays every table
row out as `actions_for_state_array + 2`, a row of `TS_SYMBOL_COUNT + 2` actions
whose two first slots have the indices `-2` and `-1`; the two reserved symbols
are these two indices. -/
def ts_builtin_sym_error : ts_symbol := -1

/-- Modelled from the spec: the reserved `end-of-input` symbol of `runtime.h`
(see `ts_builtin_sym_error`). -/
def ts_builtin_sym_end : ts_symbol := -2

/-- Modelled from the spec: the tree node of `runtime.h`, a tagged variant
Leaf / Internal / Error. Every node has a `size` and an `offset`; a leaf and an
internal node have a symbol, an internal node has its ordered children, an
Error node has the offending character and the expected symbols (count and
array). -/
inductive ts_tree where
  | leaf (symbol : ts_symbol) (size offset : Nat)
  | node (symbol : ts_symbol) (size offset : Nat) (children : List ts_tree)
  | error (lookahead_char : Nat) (expected_input_count : Nat)
      (expected_inputs : List ts_symbol) (size offset : Nat)

namespace ts_tree

/-- Field `symbol`; an Error node has the reserved error symbol. -/
def symbol : ts_tree → ts_symbol
  | leaf s _ _ => s
  | node s _ _ _ => s
  | error _ _ _ _ _ => ts_builtin_sym_error

/-- Field `size`. -/
def size : ts_tree → Nat
  | leaf _ n _ => n
  | node _ n _ _ => n
  | error _ _ _ n _ => n

/-- Field `offset`. -/
def offset : ts_tree → Nat
  | leaf _ _ o => o
  | node _ _ o _ => o
  | error _ _ _ _ o => o

/-- True for an Error node (the tag callers test). -/
def isError : ts_tree → Bool
  | error _ _ _ _ _ => true
  | _ => false

end ts_tree

/-- Modelled from the spec: `ts_tree_make_leaf(symbol, size, offset)`. -/
def ts_tree_make_leaf (symbol : ts_symbol) (size offset : Nat) : ts_tree :=
  ts_tree.leaf symbol size offset

/-- Modelled from the spec: `ts_tree_make_error(lookahead_char, count,
expected_symbols, size, offset)`. -/
def ts_tree_make_error (lookahead_char : Nat) (count : Nat) (expected : List ts_symbol)
    (size offset : Nat) : ts_tree :=
  ts_tree.error lookahead_char count expected size offset

/-- Modelled from the spec: `ts_tree_children(node, &count)`: the children of an
internal node; `NULL` (`none`) for a node without children, that is for a leaf
and for an Error node. -/
def ts_tree_children : ts_tree → Option (List ts_tree)
  | ts_tree.node _ _ _ cs => some cs
  | _ => none

/-- The `child_count` written by `ts_tree_children`. -/
def ts_tree_child_count (t : ts_tree) : Nat :=
  match ts_tree_children t with
  | some cs => cs.length
  | none => 0

/-- Modelled from the spec: the internal node built from its final children.
Its span is the concatenation of the children's spans: the offset is the first
child's offset and `offset + size` is the sum of `offset + size` over the
children; without children the node has a zero span. -/
def ts_tree_make_node (symbol : ts_symbol) (children : List ts_tree) : ts_tree :=
  let total := (children.map (fun c => c.offset + c.size)).sum
  let offset := match children with
    | [] => 0
    | c :: _ => c.offset
  ts_tree.node symbol (total - offset) offset children

/-! ## Parse table components -/

/-- The C struct `ts_parse_action`: the tag `type` with the `data` union. The
discriminants are `error = 0`, `shift`, `reduce`, `accept`; a zero-initialised
table slot is `error`. -/
inductive ts_parse_action where
  | error
  | shift (to_state : state_id)
  | reduce (symbol : ts_symbol) (child_count : Int) (collapse_flags : List Int)
  | accept

namespace ts_parse_action

/-- The test `action.type != ts_parse_action_type_error`. -/
def isError : ts_parse_action → Bool
  | error => true
  | _ => false

/-- The read `action.data.to_state`, whatever the tag: `to_state` is the first
member of the union, where a reduce action stores `symbol`; the slots written
by `ACCEPT_INPUT` and the zero-initialised slots hold `0` there. -/
def data_to_state : ts_parse_action → state_id
  | shift s => s
  | reduce sym _ _ => sym
  | error => 0
  | accept => 0

end ts_parse_action

/-! ## Stack -/

/-- One element of `ts_stack.entries`. -/
structure ts_stack_entry where
  node : Option ts_tree
  state : state_id

/-- The C struct `ts_stack`: the number `size` of entries in use, and the
array `entries` behind it, which `parser.h` reads and writes directly
(`stack.size--`, `stack.entries[0].node = error`). -/
structure ts_stack where
  size : Nat
  entries : Nat → ts_stack_entry

/-- The value `SIZE_MAX + 1 = 2^64`. -/
def SIZE_MOD : Nat := 18446744073709551616

/-- Unsigned subtraction of two `size_t` values. -/
def size_sub (a b : Nat) : Nat := (a % SIZE_MOD + (SIZE_MOD - b % SIZE_MOD)) % SIZE_MOD

/-- The decrement `size--` of a `size_t`: it wraps at 0. -/
def size_dec (n : Nat) : Nat := if n = 0 then SIZE_MOD - 1 else n - 1

/-- The entries in use, bottom first. -/
def ts_stack.toList (s : ts_stack) : List ts_stack_entry :=
  (List.range s.size).map s.entries

/-- Modelled from the spec: `ts_stack_make()`, the empty stack over a zeroed
array. -/
def ts_stack_make : ts_stack :=
  { size := 0, entries := fun _ => { node := none, state := 0 } }

/-- Modelled from the spec: the distinguished root state that `top_state()`
gives on an empty stack. -/
def ts_stack_root_state : state_id := 0

/-- Modelled from the spec: `ts_stack_top_state`. -/
def ts_stack_top_state (s : ts_stack) : state_id :=
  if s.size = 0 then ts_stack_root_state else (s.entries (s.size - 1)).state

/-- Modelled from the spec: `ts_stack_top_node`. -/
def ts_stack_top_node (s : ts_stack) : Option ts_tree :=
  if s.size = 0 then none else (s.entries (s.size - 1)).node

/-- Modelled from the spec: `ts_stack_root`, the node held by the bottom entry
(after Accept the single remaining entry). -/
def ts_stack_root (s : ts_stack) : Option ts_tree :=
  (s.entries 0).node

/-- Modelled from the spec: `ts_stack_push(stack, state, node)` appends an
entry. -/
def ts_stack_push (s : ts_stack) (state : state_id) (node : Option ts_tree) : ts_stack :=
  { size := s.size + 1
    entries := fun k => if k = s.size then { node := node, state := state } else s.entries k }

/-- Modelled from the spec: `ts_stack_shrink(stack, new_size)` pops every entry
beyond `new_size`. -/
def ts_stack_shrink (s : ts_stack) (new_size : Nat) : ts_stack :=
  { s with size := new_size }

/-- The children that the popped entries contribute to a reduction: a child
whose collapse flag is set contributes its own children instead of itself.
`none` when a popped entry holds no node. -/
def ts_stack_reduce_children : List ts_stack_entry → List Int → Option (List ts_tree)
  | [], _ => some []
  | e :: es, flags =>
    match e.node, ts_stack_reduce_children es flags.tail with
    | some t, some rest =>
      if flags.headD 0 ≠ 0 then
        some ((ts_tree_children t).getD [] ++ rest)
      else some (t :: rest)
    | _, _ => none

/-- Modelled from the spec: `ts_stack_reduce(stack, symbol, child_count,
collapse_flags)` pops exactly `child_count` entries, applies the collapse flags
and builds one internal node from the result, which it returns. `none` when
the stack holds fewer than `child_count` entries. -/
def ts_stack_reduce (s : ts_stack) (symbol : ts_symbol) (immediate_child_count : Int)
    (collapse_flags : List Int) : Option (ts_tree × ts_stack) :=
  let n := immediate_child_count.toNat
  if immediate_child_count < 0 ∨ s.size < n then none
  else
    let popped := (List.range n).map (fun k => s.entries (s.size - n + k))
    match ts_stack_reduce_children popped collapse_flags with
    | some children => some (ts_tree_make_node symbol children, ts_stack_shrink s (s.size - n))
    | none => none

/-! ## Lexer -/

/-- Modelled from the spec: the input source of `runtime.h`: `read_fn(data,
&size)` yields the next chunk (its size is the length of the list, and size 0
signals the end of the stream), `seek_fn(data, position)` repositions. The
state behind the `data` pointer has the type `σ`. -/
structure ts_input (σ : Type) where
  data : σ
  read_fn : σ → List Nat × σ
  seek_fn : σ → Nat → σ

/-- Modelled from the spec: the edit of `runtime.h`; the driver reads only
`position`. -/
structure ts_input_edit where
  position : Nat

/-- The C struct `ts_lexer`. -/
structure ts_lexer (σ : Type) where
  input : ts_input σ
  chunk : List Nat
  chunk_start : Nat
  chunk_size : Nat
  position_in_chunk : Nat
  token_end_position : Nat
  token_start_position : Nat

/-- The function `ts_lexer_make`, with the assignment `lexer.input = input`
that follows it in `ts_lr_parser_initialize`; the `NULL` chunk is the empty
list. -/
def ts_lexer_make {σ : Type} (input : ts_input σ) : ts_lexer σ :=
  { input := input
    chunk := []
    chunk_start := 0
    chunk_size := 0
    position_in_chunk := 0
    token_end_position := 0
    token_start_position := 0 }

/-- The function `ts_lexer_position`. -/
def ts_lexer_position {σ : Type} (lexer : ts_lexer σ) : Nat :=
  lexer.chunk_start + lexer.position_in_chunk

/-- The function `ts_lexer_lookahead_char`: `chunk[position_in_chunk]`; a read
outside the chunk is given the value 0 here, and the theorems on the cursor
show that it does not occur. -/
def ts_lexer_lookahead_char {σ : Type} (lexer : ts_lexer σ) : Nat :=
  lexer.chunk.getD lexer.position_in_chunk 0

/-- The function `ts_lexer_advance`. -/
def ts_lexer_advance {σ : Type} (lexer : ts_lexer σ) : ts_lexer σ :=
  if lexer.position_in_chunk + 1 < lexer.chunk_size then
    { lexer with position_in_chunk := lexer.position_in_chunk + 1 }
  else
    let r := lexer.input.read_fn lexer.input.data
    let chunk_start := lexer.chunk_start + lexer.chunk_size
    let input := { lexer.input with data := r.2 }
    if r.1.length = 0 then
      { lexer with input := input, chunk_start := chunk_start, chunk := [0], chunk_size := 1,
                   position_in_chunk := 0 }
    else
      { lexer with input := input, chunk_start := chunk_start, chunk := r.1,
                   chunk_size := r.1.length, position_in_chunk := 0 }

/-- The function `ts_lexer_build_node`. -/
def ts_lexer_build_node {σ : Type} (lexer : ts_lexer σ) (symbol : ts_symbol) :
    ts_tree × ts_lexer σ :=
  let current_position := ts_lexer_position lexer
  let size := size_sub current_position lexer.token_start_position
  let offset := size_sub lexer.token_start_position lexer.token_end_position
  (ts_tree_make_leaf symbol size offset, { lexer with token_end_position := current_position })

/-- The C library predicate `isspace` in the "C" locale. -/
def isspace (c : Nat) : Bool := c = 32 || (9 ≤ c && c ≤ 13)

/-- The loop of `ts_lexer_skip_whitespace`. -/
def ts_lexer_skip_whitespace_loop {σ : Type} : Nat → ts_lexer σ → Option (ts_lexer σ)
  | 0, _ => none
  | fuel + 1, lexer =>
    if isspace (ts_lexer_lookahead_char lexer) then
      ts_lexer_skip_whitespace_loop fuel (ts_lexer_advance lexer)
    else some lexer

/-- The function `ts_lexer_skip_whitespace`. -/
def ts_lexer_skip_whitespace {σ : Type} (fuel : Nat) (lexer : ts_lexer σ) :
    Option (ts_lexer σ) :=
  match ts_lexer_skip_whitespace_loop fuel lexer with
  | some lexer => some { lexer with token_start_position := ts_lexer_position lexer }
  | none => none

/-- The constant `ts_lex_state_error`. -/
def ts_lex_state_error : state_id := -1

/-! ## Parser -/

/-- The tables and the token recogniser that a generated parser supplies
(`PARSE_TABLE()`, `LEX_FN()`): `ts_symbol_count`, `ts_lex_states`,
`ts_parse_actions` and `ts_lex`. A call of `ts_lex` that returns `NULL`
(`LEX_PANIC`) or does not return is `none`: both callers dereference the result
at once. -/
structure Grammar (σ : Type) where
  ts_symbol_count : Nat
  ts_lex_states : state_id → state_id
  ts_parse_actions : state_id → ts_symbol → ts_parse_action
  ts_lex : ts_lexer σ → state_id → Option (ts_tree × ts_lexer σ)

/-- The C struct `ts_lr_parser`. -/
structure ts_lr_parser_t (σ : Type) where
  lexer : ts_lexer σ
  stack : ts_stack
  lookahead : Option ts_tree
  next_lookahead : Option ts_tree

/-- The function `ts_lr_parser_make`; the lexer has no input yet in C, here it
is given the input `input`, which `ts_lr_parser_initialize` replaces. -/
def ts_lr_parser_make {σ : Type} (input : ts_input σ) : ts_lr_parser_t σ :=
  { lexer := ts_lexer_make input
    stack := ts_stack_make
    lookahead := none
    next_lookahead := none }

/-- The variables that the `for` loop of `ts_lr_parser_breakdown_stack`
updates; `child` is `none` while the C variable is uninitialised, and `pushed`
lists the pushed children with their absolute end positions, last first (a
ghost variable). -/
structure breakdown_vars where
  stack : ts_stack
  left_position : Nat
  right_position : Nat
  child : Option ts_tree
  pushed : List (ts_tree × Nat)

/-- The `for` loop of `ts_lr_parser_breakdown_stack` over the children that
remain. -/
def ts_lr_parser_breakdown_children {σ : Type} (g : Grammar σ) (position : Nat) :
    List ts_tree → breakdown_vars → breakdown_vars
  | [], v => v
  | child :: rest, v =>
    let right_position := v.left_position + child.offset + child.size
    let parse_state :=
      (g.ts_parse_actions (ts_stack_top_state v.stack) child.symbol).data_to_state
    let stack := ts_stack_push v.stack parse_state (some child)
    let pushed := (child, right_position) :: v.pushed
    if right_position ≥ position then
      { stack := stack, left_position := v.left_position, right_position := right_position,
        child := some child, pushed := pushed }
    else
      ts_lr_parser_breakdown_children g position rest
        { stack := stack, left_position := right_position, right_position := right_position,
          child := some child, pushed := pushed }

/-- The `while` loop of `ts_lr_parser_breakdown_stack`. The result is `none`
when the fuel runs out and when the `for` loop leaves `child` uninitialised
(a node without children on top, `node = child` reads it). -/
def ts_lr_parser_breakdown_loop {σ : Type} (g : Grammar σ) (position : Nat) :
    Nat → ts_tree → breakdown_vars → Option breakdown_vars
  | 0, _, _ => none
  | fuel + 1, node, v =>
    if v.right_position > position ∨ (ts_tree_children node).isSome then
      let stack := { v.stack with size := size_dec v.stack.size }
      let v1 := ts_lr_parser_breakdown_children g position ((ts_tree_children node).getD [])
        { v with stack := stack, child := none }
      match v1.child with
      | none => none
      | some child => ts_lr_parser_breakdown_loop g position fuel child v1
    else some v

/-- The function `ts_lr_parser_breakdown_stack`, with the variables at the
return; the position returned is `right_position`. With a non-empty stack a
`NULL` edit or a `NULL` top node is dereferenced. -/
def ts_lr_parser_breakdown_vars {σ : Type} (g : Grammar σ) (fuel : Nat) (stack : ts_stack)
    (edit : Option ts_input_edit) : Option breakdown_vars :=
  if stack.size = 0 then
    some { stack := stack, left_position := 0, right_position := 0, child := none, pushed := [] }
  else
    match ts_stack_top_node stack, edit with
    | some node, some edit =>
      ts_lr_parser_breakdown_loop g edit.position fuel node
        { stack := stack, left_position := 0, right_position := node.offset + node.size,
          child := none, pushed := [] }
    | _, _ => none

/-- The function `ts_lr_parser_breakdown_stack`: the stack it leaves and the
position it returns. -/
def ts_lr_parser_breakdown_stack {σ : Type} (g : Grammar σ) (fuel : Nat) (stack : ts_stack)
    (edit : Option ts_input_edit) : Option (ts_stack × Nat) :=
  (ts_lr_parser_breakdown_vars g fuel stack edit).map (fun v => (v.stack, v.right_position))

/-- The function `ts_lr_parser_initialize`. -/
def ts_lr_parser_initialize {σ : Type} (g : Grammar σ) (fuel : Nat) (parser : ts_lr_parser_t σ)
    (input : ts_input σ) (edit : Option ts_input_edit) : Option (ts_lr_parser_t σ) :=
  let stack := if edit.isNone then ts_stack_shrink parser.stack 0 else parser.stack
  match ts_lr_parser_breakdown_stack g fuel stack edit with
  | none => none
  | some (stack, position) =>
    let input := { input with data := input.seek_fn input.data position }
    some { lexer := ts_lexer_advance (ts_lexer_make input)
           stack := stack
           lookahead := none
           next_lookahead := none }

/-- The function `ts_lr_parser_shift`. -/
def ts_lr_parser_shift {σ : Type} (parser : ts_lr_parser_t σ) (parse_state : state_id) :
    ts_lr_parser_t σ :=
  { parser with
    stack := ts_stack_push parser.stack parse_state parser.lookahead
    lookahead := parser.next_lookahead
    next_lookahead := none }

/-- The function `ts_lr_parser_reduce`. -/
def ts_lr_parser_reduce {σ : Type} (parser : ts_lr_parser_t σ) (symbol : ts_symbol)
    (immediate_child_count : Int) (collapse_flags : List Int) : Option (ts_lr_parser_t σ) :=
  match ts_stack_reduce parser.stack symbol immediate_child_count collapse_flags with
  | none => none
  | some (node, stack) =>
    some { parser with
           next_lookahead := parser.lookahead
           lookahead := some node
           stack := stack }

/-- The first loop of `ts_lr_parser_expected_symbols` over `i < n`: the value of
`*count`. -/
def ts_lr_parser_expected_count (actions : ts_symbol → ts_parse_action) : Nat → Nat
  | 0 => 0
  | n + 1 =>
    if !(actions (n : Int)).isError then ts_lr_parser_expected_count actions n + 1
    else ts_lr_parser_expected_count actions n

/-- The second loop of `ts_lr_parser_expected_symbols` over `i < n`: the values
written to `result[0], result[1], ...`, in this order. -/
def ts_lr_parser_expected_fill (actions : ts_symbol → ts_parse_action) : Nat → List ts_symbol
  | 0 => []
  | n + 1 =>
    if !(actions (n : Int)).isError then ts_lr_parser_expected_fill actions n ++ [(n : Int)]
    else ts_lr_parser_expected_fill actions n

/-- The function `ts_lr_parser_expected_symbols`: the array returned and
`*count`. -/
def ts_lr_parser_expected_symbols {σ : Type} (g : Grammar σ) (parser : ts_lr_parser_t σ) :
    List ts_symbol × Nat :=
  let actions := g.ts_parse_actions (ts_stack_top_state parser.stack)
  (ts_lr_parser_expected_fill actions g.ts_symbol_count,
   ts_lr_parser_expected_count actions g.ts_symbol_count)

/-- The Error node that `ts_lr_parser_handle_error` creates before its loop. -/
def ts_lr_parser_error_node {σ : Type} (g : Grammar σ) (parser : ts_lr_parser_t σ) : ts_tree :=
  let r := ts_lr_parser_expected_symbols g parser
  ts_tree_make_error (ts_lexer_lookahead_char parser.lexer) r.2 r.1 0 0

/-- The inner `for (long i = size - 1; i >= 0; i--)` loop of
`ts_lr_parser_handle_error` with `n` depths left (`i = n - 1`): the stack after
a resynchronisation if there is one, and the number of depths probed. -/
def ts_lr_parser_unwind {σ : Type} (g : Grammar σ) (stack : ts_stack) (error : ts_tree)
    (symbol : ts_symbol) : Nat → Option ts_stack × Nat
  | 0 => (none, 0)
  | i + 1 =>
    let stack_state := (stack.entries i).state
    match g.ts_parse_actions stack_state ts_builtin_sym_error with
    | ts_parse_action.shift state_after_error =>
      if !(g.ts_parse_actions state_after_error symbol).isError then
        (some (ts_stack_push (ts_stack_shrink stack (i + 1)) state_after_error (some error)), 1)
      else
        let r := ts_lr_parser_unwind g stack error symbol i
        (r.1, r.2 + 1)
    | _ =>
      let r := ts_lr_parser_unwind g stack error symbol i
      (r.1, r.2 + 1)

/-- The assignment `stack.entries[0].node = node`. -/
def ts_stack_set_root_node (s : ts_stack) (node : ts_tree) : ts_stack :=
  { s with entries := fun k => if k = 0 then { s.entries 0 with node := some node }
                               else s.entries k }

/-- The `for (;;)` loop of `ts_lr_parser_handle_error`, with the value returned
(0 or 1). -/
def ts_lr_parser_handle_error_loop {σ : Type} (g : Grammar σ) (error : ts_tree) :
    Nat → ts_lr_parser_t σ → Option (Int × ts_lr_parser_t σ)
  | 0, _ => none
  | fuel + 1, parser =>
    match g.ts_lex parser.lexer ts_lex_state_error with
    | none => none
    | some (token, lexer) =>
      let parser := { parser with lookahead := some token, lexer := lexer }
      if token.symbol = ts_builtin_sym_end then
        some (0, { parser with stack := ts_stack_set_root_node parser.stack error })
      else
        match (ts_lr_parser_unwind g parser.stack error token.symbol parser.stack.size).1 with
        | some stack => some (1, { parser with stack := stack })
        | none => ts_lr_parser_handle_error_loop g error fuel parser

/-- The function `ts_lr_parser_handle_error`. -/
def ts_lr_parser_handle_error {σ : Type} (g : Grammar σ) (fuel : Nat)
    (parser : ts_lr_parser_t σ) : Option (Int × ts_lr_parser_t σ) :=
  ts_lr_parser_handle_error_loop g (ts_lr_parser_error_node g parser) fuel parser

/-- The first statements of the body of the loop of `ts_parse`: the lookahead
is lexed when the slot is empty. -/
def ts_parse_fill_lookahead {σ : Type} (g : Grammar σ) (parser : ts_lr_parser_t σ) :
    Option (ts_tree × ts_lr_parser_t σ) :=
  match parser.lookahead with
  | some token => some (token, parser)
  | none =>
    match g.ts_lex parser.lexer (g.ts_lex_states (ts_stack_top_state parser.stack)) with
    | none => none
    | some (token, lexer) => some (token, { parser with lookahead := some token, lexer := lexer })

/-- The body of the `while (!done)` loop of `ts_parse`: the value of `done`
after it, and the parser. `fuel` is the fuel of the error recovery. -/
def ts_parse_step {σ : Type} (g : Grammar σ) (fuel : Nat) (parser : ts_lr_parser_t σ) :
    Option (Bool × ts_lr_parser_t σ) :=
  let state := ts_stack_top_state parser.stack
  match ts_parse_fill_lookahead g parser with
  | none => none
  | some (lookahead, parser) =>
    match g.ts_parse_actions state lookahead.symbol with
    | ts_parse_action.shift to_state => some (false, ts_lr_parser_shift parser to_state)
    | ts_parse_action.reduce symbol child_count collapse_flags =>
      match ts_lr_parser_reduce parser symbol child_count collapse_flags with
      | none => none
      | some parser => some (false, parser)
    | ts_parse_action.accept => some (true, parser)
    | ts_parse_action.error =>
      match ts_lr_parser_handle_error g fuel parser with
      | none => none
      | some (r, parser) => some (r == 0, parser)

/-- The `while (!done)` loop of `ts_parse`. -/
def ts_parse_loop {σ : Type} (g : Grammar σ) : Nat → ts_lr_parser_t σ → Option (ts_lr_parser_t σ)
  | 0, _ => none
  | fuel + 1, parser =>
    match ts_parse_step g fuel parser with
    | none => none
    | some (done, parser) => if done then some parser else ts_parse_loop g fuel parser

/-- The function `ts_parse`: the tree returned, `ts_stack_root`, and the parser
it leaves behind `data`. -/
def ts_parse {σ : Type} (g : Grammar σ) (fuel : Nat) (parser : ts_lr_parser_t σ)
    (input : ts_input σ) (edit : Option ts_input_edit) :
    Option (Option ts_tree × ts_lr_parser_t σ) :=
  match ts_lr_parser_initialize g fuel parser input edit with
  | none => none
  | some parser =>
    match ts_parse_loop g fuel parser with
    | none => none
    | some parser => some (ts_stack_root parser.stack, parser)

/-- The token that the `k`-th iteration (from 0) of the `for (;;)` loop of
`ts_lr_parser_handle_error` lexes when no earlier iteration returns, and the
lexer after it: `k + 1` calls of `ts_lex` in the error lex state. -/
def ts_lex_error_run {σ : Type} (g : Grammar σ) :
    Nat → ts_lexer σ → Option (ts_tree × ts_lexer σ)
  | 0, lexer => g.ts_lex lexer ts_lex_state_error
  | k + 1, lexer =>
    match g.ts_lex lexer ts_lex_state_error with
    | none => none
    | some r => ts_lex_error_run g k r.2

/-- The parser after `k` iterations of the loop of `ts_parse` that all leave
`done = 0`, started with the fuel `fuel`; `none` when one of them does not
return or sets `done`. -/
def ts_parse_iterate {σ : Type} (g : Grammar σ) :
    Nat → Nat → ts_lr_parser_t σ → Option (ts_lr_parser_t σ)
  | 0, _, parser => some parser
  | _ + 1, 0, _ => none
  | k + 1, fuel + 1, parser =>
    match ts_parse_step g fuel parser with
    | some (false, parser) => ts_parse_iterate g k fuel parser
    | _ => none

mutual
/-- The leaves of a tree, left to right; an Error node has no children and
counts as a leaf. -/
def ts_tree.leaves : ts_tree → List ts_tree
  | ts_tree.node _ _ _ cs => ts_tree.leaves_of_list cs
  | ts_tree.leaf s n o => [ts_tree.leaf s n o]
  | ts_tree.error c k e n o => [ts_tree.error c k e n o]
/-- The leaves of a list of trees. -/
def ts_tree.leaves_of_list : List ts_tree → List ts_tree
  | [] => []
  | c :: cs => ts_tree.leaves c ++ ts_tree.leaves_of_list cs
end

/-- The expected symbols stored in an Error node; empty for another node. -/
def ts_tree.expected_inputs : ts_tree → List ts_symbol
  | ts_tree.error _ _ e _ _ => e
  | _ => []

/-- The character stored in an Error node. -/
def ts_tree.lookahead_char : ts_tree → Option Nat
  | ts_tree.error c _ _ _ _ => some c
  | _ => none

/-! ## A generated parser: `expr := expr PLUS NUM | NUM` -/

/-- The nonterminal `expr` of the example grammar. -/
def sym_expr : ts_symbol := 0

/-- The token `NUM`, one decimal digit. -/
def sym_NUM : ts_symbol := 1

/-- The token `PLUS`, the byte `+`. -/
def sym_PLUS : ts_symbol := 2

/-- The table that `START_TABLE` / `STATE` / `SHIFT` / `REDUCE` /
`ACCEPT_INPUT` build for the LR(1) automaton of
`expr := expr PLUS NUM | NUM`; every slot not written is zero-initialised,
which is the Error action.

* state 0: `NUM` shift 1, `expr` shift 2
* state 1 (`NUM .`): reduce `expr` (1 child) on `PLUS` and on end-of-input
* state 2 (`expr . PLUS NUM`): `PLUS` shift 3, end-of-input accept
* state 3 (`expr PLUS . NUM`): `NUM` shift 4
* state 4 (`expr PLUS NUM .`): reduce `expr` (3 children) on `PLUS` and on
  end-of-input -/
def expr_parse_actions (state : state_id) (symbol : ts_symbol) : ts_parse_action :=
  if state = 0 then
    if symbol = sym_NUM then ts_parse_action.shift 1
    else if symbol = sym_expr then ts_parse_action.shift 2
    else ts_parse_action.error
  else if state = 1 then
    if symbol = sym_PLUS ∨ symbol = ts_builtin_sym_end then
      ts_parse_action.reduce sym_expr 1 [0]
    else ts_parse_action.error
  else if state = 2 then
    if symbol = sym_PLUS then ts_parse_action.shift 3
    else if symbol = ts_builtin_sym_end then ts_parse_action.accept
    else ts_parse_action.error
  else if state = 3 then
    if symbol = sym_NUM then ts_parse_action.shift 4
    else ts_parse_action.error
  else if state = 4 then
    if symbol = sym_PLUS ∨ symbol = ts_builtin_sym_end then
      ts_parse_action.reduce sym_expr 3 [0, 0, 0]
    else ts_parse_action.error
  else ts_parse_action.error

/-- The lex states of the example reached by `ADVANCE`: state 1 is
`ACCEPT_TOKEN(NUM)`, state 2 is `ACCEPT_TOKEN(PLUS)`, state 3 is `LEX_ERROR()`;
any other state is `LEX_PANIC()`. -/
def expr_lex_accept {σ : Type} (lexer : ts_lexer σ) (lex_state : state_id) :
    Option (ts_tree × ts_lexer σ) :=
  if lex_state = 1 then some (ts_lexer_build_node lexer sym_NUM)
  else if lex_state = 2 then some (ts_lexer_build_node lexer sym_PLUS)
  else if lex_state = 3 then some (ts_lexer_build_node lexer ts_builtin_sym_error)
  else none

/-- The `switch (LEX_STATE())` of the example after `START_LEXER()`. Lex state
0, the start state of every parse state: a digit `ADVANCE(1)`, the byte `+`
`ADVANCE(2)`, any other byte `LEX_ERROR()`. The state `ts_lex_state_error`: the
same, but any other byte `ADVANCE(3)`, so that this state consumes the byte it
rejects. -/
def expr_lex_switch {σ : Type} (lexer : ts_lexer σ) (lex_state : state_id) :
    Option (ts_tree × ts_lexer σ) :=
  let c := ts_lexer_lookahead_char lexer
  if lex_state = 0 then
    if 48 ≤ c ∧ c ≤ 57 then expr_lex_accept (ts_lexer_advance lexer) 1
    else if c = 43 then expr_lex_accept (ts_lexer_advance lexer) 2
    else some (ts_lexer_build_node lexer ts_builtin_sym_error)
  else if lex_state = ts_lex_state_error then
    if 48 ≤ c ∧ c ≤ 57 then expr_lex_accept (ts_lexer_advance lexer) 1
    else if c = 43 then expr_lex_accept (ts_lexer_advance lexer) 2
    else expr_lex_accept (ts_lexer_advance lexer) 3
  else expr_lex_accept lexer lex_state

/-- The macro `START_LEXER()` followed by the recogniser `body`: skip the
whitespace, return the end-of-input leaf at a null lookahead byte, else
recognise a token. -/
def START_LEXER {σ : Type} (fuel : Nat)
    (body : ts_lexer σ → state_id → Option (ts_tree × ts_lexer σ))
    (lexer : ts_lexer σ) (lex_state : state_id) : Option (ts_tree × ts_lexer σ) :=
  match ts_lexer_skip_whitespace fuel lexer with
  | none => none
  | some lexer =>
    if ts_lexer_lookahead_char lexer = 0 then
      some (ts_tree_make_leaf ts_builtin_sym_end 0 0, lexer)
    else body lexer lex_state

/-- The `LEX_FN()` of the example; `fuel` bounds the whitespace loop. -/
def expr_lex {σ : Type} (fuel : Nat) (lexer : ts_lexer σ) (lex_state : state_id) :
    Option (ts_tree × ts_lexer σ) :=
  START_LEXER fuel expr_lex_switch lexer lex_state

/-- The generated parser of the example: `TS_SYMBOL_COUNT` is 3 and every
parse state has the lex state 0. -/
def expr_grammar (σ : Type) (fuel : Nat) : Grammar σ :=
  { ts_symbol_count := 3
    ts_lex_states := fun _ => 0
    ts_parse_actions := expr_parse_actions
    ts_lex := expr_lex fuel }

/-! ## An input source over a list of chunks -/

/-- The state of a source that delivers the chunks of a fixed list: the whole
list, and the chunks not yet read. -/
structure chunk_source where
  all : List (List Nat)
  rest : List (List Nat)

/-- The chunks that remain after the first `n` bytes. -/
def drop_bytes : Nat → List (List Nat) → List (List Nat)
  | _, [] => []
  | n, c :: cs =>
    if n = 0 then c :: cs
    else if c.length ≤ n then drop_bytes (n - c.length) cs
    else c.drop n :: cs

/-- The input source over the chunks `chunks`: a read yields the next chunk, and
size 0 once they are exhausted; a seek restarts at the given byte. -/
def chunk_input (chunks : List (List Nat)) : ts_input chunk_source :=
  { data := { all := chunks, rest := chunks }
    read_fn := fun d =>
      match d.rest with
      | [] => ([], d)
      | c :: cs => (c, { d with rest := cs })
    seek_fn := fun d position => { d with rest := drop_bytes position d.all } }

/-- The input source over a text delivered as one chunk. -/
def string_input (text : List Nat) : ts_input chunk_source :=
  chunk_input [text]

/-- The text `1+2+3`. -/
def text_1p2p3 : List Nat := [49, 43, 50, 43, 51]

/-- The text `1*2+3`. -/
def text_1m2p3 : List Nat := [49, 42, 50, 43, 51]

/-- The text `11`. -/
def text_11 : List Nat := [49, 49]

/-- The tree `expr(expr(expr(NUM) PLUS NUM) PLUS NUM)` over five leaves of size 1
and offset 0. -/
def expr_tree_1p2p3 : ts_tree :=
  ts_tree.node sym_expr 5 0
    [ts_tree.node sym_expr 3 0
      [ts_tree.node sym_expr 1 0 [ts_tree.leaf sym_NUM 1 0],
       ts_tree.leaf sym_PLUS 1 0,
       ts_tree.leaf sym_NUM 1 0],
     ts_tree.leaf sym_PLUS 1 0,
     ts_tree.leaf sym_NUM 1 0]

/-- The parse of `text` by the example parser, from scratch (`edit = NULL`) on a
new parser. -/
def expr_parse_scratch (text : List Nat) : Option (Option ts_tree × ts_lr_parser_t chunk_source) :=
  ts_parse (expr_grammar chunk_source 1) 20 (ts_lr_parser_make (string_input []))
    (string_input text) none

/-- The parse of `original` from scratch, followed on the same parser by the
parse of `edited` with an edit at `position`. -/
def expr_parse_incremental (original edited : List Nat) (position : Nat) :
    Option (Option ts_tree × ts_lr_parser_t chunk_source) :=
  match expr_parse_scratch original with
  | none => none
  | some r =>
    ts_parse (expr_grammar chunk_source 1) 20 r.2 (string_input edited)
      (some { position := position })

/-- The lexer after `n` calls of `ts_lexer_advance`. -/
def ts_lexer_advance_n {σ : Type} : Nat → ts_lexer σ → ts_lexer σ
  | 0, lexer => lexer
  | n + 1, lexer => ts_lexer_advance (ts_lexer_advance_n n lexer)

/-- The state of a lexer over `chunk_input chunks`: it reads with the `read_fn`
of that source, `chunk_size` is the size of `chunk`, the cursor is inside the
chunk, and either `chunk` is one of the chunks, starting at the sum of the
sizes of the chunks before it, the source being left with the chunks after it,
or the source is exhausted and `chunk` is the synthetic null byte at or after the
end of the stream. -/
def cursor_inv (chunks : List (List Nat)) (lexer : ts_lexer chunk_source) : Prop :=
  lexer.input.read_fn = (chunk_input chunks).read_fn ∧
  lexer.chunk_size = lexer.chunk.length ∧
  lexer.position_in_chunk < lexer.chunk_size ∧
  ((∃ pre c post, chunks = pre ++ c :: post ∧ lexer.chunk = c ∧
      lexer.chunk_start = pre.flatten.length ∧ lexer.input.data.rest = post) ∨
   (lexer.chunk = [0] ∧ lexer.input.data.rest = [] ∧
      chunks.flatten.length ≤ lexer.chunk_start))

/-- The parser that `ts_lr_parser_handle_error` leaves when it returns 0 after
the end-of-input token `token`: the Error node `error` is installed in
`stack.entries[0].node`. -/
def ts_lr_parser_unrecoverable {σ : Type} (parser : ts_lr_parser_t σ) (error : ts_tree)
    (token : ts_tree) (lexer : ts_lexer σ) : ts_lr_parser_t σ :=
  { parser with
    lookahead := some token
    lexer := lexer
    stack := ts_stack_set_root_node parser.stack error }

/-- The state of the loop of `ts_parse` at the start of iteration `k` (from 0)
of the parse of `text` from scratch on a new parser; the new parser when the
parse does not get there. -/
def driver_state (g : Grammar chunk_source) (text : List Nat) (k : Nat) :
    ts_lr_parser_t chunk_source :=
  match ( ts_lr_parser_initialize g 0 (ts_lr_parser_make (string_input []))
      (string_input text) none).bind (ts_parse_iterate g k k) with
  | some parser => parser
  | none => ts_lr_parser_make (string_input [])

/-- The state `driver_state g text k` once the lookahead slot is filled. -/
def driver_state_lexed (g : Grammar chunk_source) (text : List Nat) (k : Nat) :
    ts_lr_parser_t chunk_source :=
  match ts_parse_fill_lookahead g (driver_state g text k) with
  | some r => r.2
  | none => ts_lr_parser_make (string_input [])

/-- The table of the example with a recovery after `NUM`: state 1 shifts the
reserved error symbol to state 5, and state 5 shifts `PLUS` to state 3. -/
def recover_parse_actions (state : state_id) (symbol : ts_symbol) : ts_parse_action :=
  if state = 1 ∧ symbol = ts_builtin_sym_error then ts_parse_action.shift 5
  else if state = 5 then
    if symbol = sym_PLUS then ts_parse_action.shift 3 else ts_parse_action.error
  else expr_parse_actions state symbol

/-- The generated parser of the example with the table `recover_parse_actions`. -/
def recover_grammar (fuel : Nat) : Grammar chunk_source :=
  { ts_symbol_count := 3
    ts_lex_states := fun _ => 0
    ts_parse_actions := recover_parse_actions
    ts_lex := expr_lex fuel }

/-- The text `*`. -/
def text_m : List Nat := [42]

/-- The text `1*+2`. -/
def text_1mp2 : List Nat := [49, 42, 43, 50]

/-! ## Lexing runs -/

/-- The lexer states of a run over `input`: the lexer that
`ts_lr_parser_initialize` makes (a new lexer after its first
`ts_lexer_advance`), and every state that `ts_lexer_advance`,
`ts_lexer_skip_whitespace` and `ts_lexer_build_node` reach from it. -/
inductive lexer_reachable {σ : Type} (input : ts_input σ) : ts_lexer σ → Prop where
  | start : lexer_reachable input (ts_lexer_advance (ts_lexer_make input))
  | advance (lexer : ts_lexer σ) :
      lexer_reachable input lexer → lexer_reachable input (ts_lexer_advance lexer)
  | skip_whitespace (fuel : Nat) (lexer skipped : ts_lexer σ) :
      lexer_reachable input lexer → ts_lexer_skip_whitespace fuel lexer = some skipped →
      lexer_reachable input skipped
  | build_node (lexer : ts_lexer σ) (symbol : ts_symbol) :
      lexer_reachable input lexer → lexer_reachable input (ts_lexer_build_node lexer symbol).2

/-- One token of a lexing run: the fuel of the whitespace loop, the number of
calls of `ts_lexer_advance` that scan the token, and the symbol accepted. -/
structure lex_request where
  fuel : Nat
  advances : Nat
  symbol : ts_symbol

/-- The production of one token: `ts_lexer_skip_whitespace`, then
`request.advances` calls of `ts_lexer_advance`, then `ts_lexer_build_node`. -/
def lex_token {σ : Type} (lexer : ts_lexer σ) (request : lex_request) :
    Option (ts_tree × ts_lexer σ) :=
  match ts_lexer_skip_whitespace request.fuel lexer with
  | none => none
  | some skipped =>
    some (ts_lexer_build_node (ts_lexer_advance_n request.advances skipped) request.symbol)

/-- The lexing run that produces one token for each request, in order: the
leaves and the lexer after the last one. -/
def lex_run {σ : Type} : List lex_request → ts_lexer σ → Option (List ts_tree × ts_lexer σ)
  | [], lexer => some ([], lexer)
  | request :: rest, lexer =>
    match lex_token lexer request with
    | none => none
    | some r =>
      match lex_run rest r.2 with
      | none => none
      | some rs => some (r.1 :: rs.1, rs.2)

/-- The sum of `offset + size` over a list of nodes. -/
def span_sum (nodes : List ts_tree) : Nat :=
  (nodes.map (fun t => t.offset + t.size)).sum

/-- The leaves that repeated calls of `ts_lex` in the lex state `lex_state`
return, up to and including the first end-of-input leaf. -/
def lex_until_end {σ : Type} (g : Grammar σ) (lex_state : state_id) :
    Nat → ts_lexer σ → Option (List ts_tree)
  | 0, _ => none
  | fuel + 1, lexer =>
    match g.ts_lex lexer lex_state with
    | none => none
    | some r =>
      if r.1.symbol = ts_builtin_sym_end then some [r.1]
      else
        match lex_until_end g lex_state fuel r.2 with
        | none => none
        | some rest => some (r.1 :: rest)

/-! ## Trees and stacks: spans and consistency with the table -/

mutual
/-- A tree is well formed when `offset + size` of every internal node is the sum
of `offset + size` over its children. -/
def ts_tree.well_formed : ts_tree → Bool
  | ts_tree.node _ n o cs =>
    (o + n == ts_tree.span_of_list cs) && ts_tree.well_formed_list cs
  | ts_tree.leaf _ _ _ => true
  | ts_tree.error _ _ _ _ _ => true
/-- Every tree of the list is well formed. -/
def ts_tree.well_formed_list : List ts_tree → Bool
  | [] => true
  | c :: cs => ts_tree.well_formed c && ts_tree.well_formed_list cs
/-- The sum of `offset + size` over the trees of the list. -/
def ts_tree.span_of_list : List ts_tree → Nat
  | [] => 0
  | c :: cs => (ts_tree.offset c + ts_tree.size c) + ts_tree.span_of_list cs
end

mutual
/-- Every node of the tree has a span `offset + size` of at least one byte. -/
def ts_tree.spans_positive : ts_tree → Bool
  | ts_tree.node _ n o cs => decide (1 ≤ o + n) && ts_tree.spans_positive_list cs
  | ts_tree.leaf _ n o => decide (1 ≤ o + n)
  | ts_tree.error _ _ _ n o => decide (1 ≤ o + n)
/-- Every node of every tree of the list has a span of at least one byte. -/
def ts_tree.spans_positive_list : List ts_tree → Bool
  | [] => true
  | c :: cs => ts_tree.spans_positive c && ts_tree.spans_positive_list cs
end

/-- The span `offset + size` of the node of a stack entry; 0 without node. -/
def entry_span (e : ts_stack_entry) : Nat :=
  match e.node with
  | some t => t.offset + t.size
  | none => 0

/-- The sum of the spans of the first `n` stack entries: the absolute end
position of entry `n - 1` when the stack holds a prefix of the text. -/
def stack_span_sum (s : ts_stack) : Nat → Nat
  | 0 => 0
  | n + 1 => stack_span_sum s n + entry_span (s.entries n)

/-- The state beneath entry `k` of the stack: the root state for `k = 0`. -/
def state_beneath (s : ts_stack) (k : Nat) : state_id :=
  if k = 0 then ts_stack_root_state else (s.entries (k - 1)).state

/-- Entry `k` carries a node, and the table action of the state beneath it on the
symbol of that node is Shift to the state of the entry. -/
def stack_consistent_at {σ : Type} (g : Grammar σ) (s : ts_stack) (k : Nat) : Bool :=
  match (s.entries k).node with
  | some t =>
    match g.ts_parse_actions (state_beneath s k) t.symbol with
    | ts_parse_action.shift to_state => to_state == (s.entries k).state
    | _ => false
  | none => false

/-- The stack is consistent with the table at every entry in use. -/
def stack_consistent {σ : Type} (g : Grammar σ) (s : ts_stack) : Prop :=
  ∀ k, k < s.size → stack_consistent_at g s k = true

/-- The variables of breakdown after a push: `child` is the node on top of the
stack, the spans of the entries below it add up to at most `left_position`,
and the spans of all entries to at most `right_position`. -/
def breakdown_top_ok (v : breakdown_vars) : Prop :=
  ∃ top, v.child = some top ∧ ts_stack_top_node v.stack = some top ∧
    1 ≤ v.stack.size ∧
    stack_span_sum v.stack (v.stack.size - 1) ≤ v.left_position ∧
    stack_span_sum v.stack v.stack.size ≤ v.right_position

/-! ## More generated parsers -/

/-- A table with a Reduce action on a nonterminal: in state 0 the token `NUM`
reduces `expr` from no child, and `expr` reduces the symbol 3 from no child. -/
def double_reduce_actions (state : state_id) (symbol : ts_symbol) : ts_parse_action :=
  if state = 0 ∧ symbol = sym_NUM then ts_parse_action.reduce sym_expr 0 []
  else if state = 0 ∧ symbol = sym_expr then ts_parse_action.reduce 3 0 []
  else ts_parse_action.error

/-- The generated parser with the table `double_reduce_actions`. -/
def double_reduce_grammar (fuel : Nat) : Grammar chunk_source :=
  { ts_symbol_count := 4
    ts_lex_states := fun _ => 0
    ts_parse_actions := double_reduce_actions
    ts_lex := expr_lex fuel }

/-- The LR(1) table of the right-recursive grammar `expr := NUM expr | NUM`.

* state 0: `NUM` shift 1, `expr` shift 2
* state 1 (`NUM . expr`, `NUM .`): `NUM` shift 1, `expr` shift 3, reduce `expr`
  (1 child) on end-of-input
* state 2: end-of-input accept
* state 3 (`NUM expr .`): reduce `expr` (2 children) on end-of-input -/
def list_parse_actions (state : state_id) (symbol : ts_symbol) : ts_parse_action :=
  if state = 0 then
    if symbol = sym_NUM then ts_parse_action.shift 1
    else if symbol = sym_expr then ts_parse_action.shift 2
    else ts_parse_action.error
  else if state = 1 then
    if symbol = sym_NUM then ts_parse_action.shift 1
    else if symbol = sym_expr then ts_parse_action.shift 3
    else if symbol = ts_builtin_sym_end then ts_parse_action.reduce sym_expr 1 [0]
    else ts_parse_action.error
  else if state = 2 then
    if symbol = ts_builtin_sym_end then ts_parse_action.accept else ts_parse_action.error
  else if state = 3 then
    if symbol = ts_builtin_sym_end then ts_parse_action.reduce sym_expr 2 [0, 0]
    else ts_parse_action.error
  else ts_parse_action.error

/-- The generated parser of `expr := NUM expr | NUM`. -/
def list_grammar (fuel : Nat) : Grammar chunk_source :=
  { ts_symbol_count := 3
    ts_lex_states := fun _ => 0
    ts_parse_actions := list_parse_actions
    ts_lex := expr_lex fuel }

/-- The hidden nonterminal `pair` of the grammar with a collapsed child. -/
def sym_pair : ts_symbol := 3

/-- The LR(1) table of `expr := pair PLUS`, `pair := NUM NUM`, where the
reduction of `expr` collapses its first child `pair` (`COLLAPSE({1, 0})`).

* state 0: `NUM` shift 1, `pair` shift 3, `expr` shift 6
* state 1 (`NUM . NUM`): `NUM` shift 2
* state 2 (`NUM NUM .`): reduce `pair` (2 children) on `PLUS`
* state 3 (`pair . PLUS`): `PLUS` shift 4
* state 4 (`pair PLUS .`): reduce `expr` (2 children, the first collapsed) on
  end-of-input
* state 6: end-of-input accept -/
def collapse_parse_actions (state : state_id) (symbol : ts_symbol) : ts_parse_action :=
  if state = 0 then
    if symbol = sym_NUM then ts_parse_action.shift 1
    else if symbol = sym_pair then ts_parse_action.shift 3
    else if symbol = sym_expr then ts_parse_action.shift 6
    else ts_parse_action.error
  else if state = 1 then
    if symbol = sym_NUM then ts_parse_action.shift 2 else ts_parse_action.error
  else if state = 2 then
    if symbol = sym_PLUS then ts_parse_action.reduce sym_pair 2 [0, 0]
    else ts_parse_action.error
  else if state = 3 then
    if symbol = sym_PLUS then ts_parse_action.shift 4 else ts_parse_action.error
  else if state = 4 then
    if symbol = ts_builtin_sym_end then ts_parse_action.reduce sym_expr 2 [1, 0]
    else ts_parse_action.error
  else if state = 6 then
    if symbol = ts_builtin_sym_end then ts_parse_action.accept else ts_parse_action.error
  else ts_parse_action.error

/-- The generated parser of `expr := pair PLUS`, `pair := NUM NUM`. -/
def collapse_grammar (fuel : Nat) : Grammar chunk_source :=
  { ts_symbol_count := 4
    ts_lex_states := fun _ => 0
    ts_parse_actions := collapse_parse_actions
    ts_lex := expr_lex fuel }

/-- The parser that the parse of `text` from scratch on a new parser leaves; the
new parser when that parse does not return. -/
def parser_after (g : Grammar chunk_source) (text : List Nat) : ts_lr_parser_t chunk_source :=
  match ts_parse g 20 (ts_lr_parser_make (string_input [])) (string_input text) none with
  | some r => r.2
  | none => ts_lr_parser_make (string_input [])

/-- The text `1`. -/
def text_1 : List Nat := [49]

/-- The text `1` followed by a blank. -/
def text_1_blank : List Nat := [49, 32]

/-- The text `11` followed by a blank. -/
def text_11_blank : List Nat := [49, 49, 32]

/-- The text `11+`. -/
def text_11p : List Nat := [49, 49, 43]

/-- The text `1`, a null byte, `2`. -/
def text_1_nul_2 : List Nat := [49, 0, 50]

/-! ## The chunked cursor -/

theorem chunk_input_read_nil (chunks : List (List Nat)) (d : chunk_source) (h : d.rest = []) :
    (chunk_input chunks).read_fn d = ([], d) := by
  simp [chunk_input, h]

theorem chunk_input_read_cons (chunks : List (List Nat)) (d : chunk_source) (c : List Nat)
    (cs : List (List Nat)) (h : d.rest = c :: cs) :
    (chunk_input chunks).read_fn d = (c, { d with rest := cs }) := by
  simp [chunk_input, h]

theorem cursor_inv_first (chunks : List (List Nat)) (hne : ∀ c ∈ chunks, c ≠ []) :
    cursor_inv chunks (ts_lexer_advance (ts_lexer_make (chunk_input chunks))) ∧
    ts_lexer_position (ts_lexer_advance (ts_lexer_make (chunk_input chunks))) = 0 := by
  cases chunks with
  | nil =>
    refine ⟨⟨rfl, rfl, by decide, Or.inr ⟨rfl, rfl, by simp [ts_lexer_advance, ts_lexer_make]⟩⟩, rfl⟩
  | cons c cs =>
    have hc : c ≠ [] := hne c (by simp)
    have hlen : c.length ≠ 0 := by
      intro h0
      exact hc (List.length_eq_zero.mp h0)
    have hadv : ts_lexer_advance (ts_lexer_make (chunk_input (c :: cs))) =
        { input := { chunk_input (c :: cs) with data := { all := c :: cs, rest := cs } }
          chunk := c, chunk_start := 0, chunk_size := c.length, position_in_chunk := 0
          token_end_position := 0, token_start_position := 0 } := by
      simp [ts_lexer_advance, ts_lexer_make, chunk_input, hlen]
    rw [hadv]
    refine ⟨⟨rfl, rfl, Nat.pos_of_ne_zero hlen, Or.inl ⟨[], c, cs, rfl, rfl, rfl, rfl⟩⟩, rfl⟩

theorem cursor_inv_advance (chunks : List (List Nat)) (hne : ∀ c ∈ chunks, c ≠ [])
    (lexer : ts_lexer chunk_source) (h : cursor_inv chunks lexer) :
    cursor_inv chunks (ts_lexer_advance lexer) ∧
    ts_lexer_position (ts_lexer_advance lexer) = ts_lexer_position lexer + 1 := by
  obtain ⟨hread, hsize, hpos, hcase⟩ := h
  by_cases h1 : lexer.position_in_chunk + 1 < lexer.chunk_size
  · have hadv : ts_lexer_advance lexer =
        { lexer with position_in_chunk := lexer.position_in_chunk + 1 } := by
      simp [ts_lexer_advance, h1]
    rw [hadv]
    exact ⟨⟨hread, hsize, h1, hcase⟩, by simp [ts_lexer_position]; omega⟩
  · have hnext : lexer.chunk_size = lexer.position_in_chunk + 1 := by omega
    rcases hcase with ⟨pre, c, post, hchunks, hchunk, hstart, hrest⟩ | ⟨hchunk, hrest, hend⟩
    · cases post with
      | nil =>
        have hr : lexer.input.read_fn lexer.input.data = ([], lexer.input.data) := by
          rw [hread]; exact chunk_input_read_nil chunks _ hrest
        have hadv : ts_lexer_advance lexer =
            { lexer with input := { lexer.input with data := lexer.input.data }
                         chunk_start := lexer.chunk_start + lexer.chunk_size
                         chunk := [0], chunk_size := 1, position_in_chunk := 0 } := by
          simp [ts_lexer_advance, h1, hr]
        rw [hadv]
        refine ⟨⟨hread, rfl, Nat.zero_lt_one, Or.inr ⟨rfl, hrest, ?_⟩⟩, ?_⟩
        · simp only [hchunks, hstart, hsize, hchunk]
          simp
        · simp [ts_lexer_position]; omega
      | cons c2 post2 =>
        have hc2 : c2 ≠ [] := hne c2 (by rw [hchunks]; simp)
        have hlen : c2.length ≠ 0 := by
          intro h0
          exact hc2 (List.length_eq_zero.mp h0)
        have hr : lexer.input.read_fn lexer.input.data =
            (c2, { lexer.input.data with rest := post2 }) := by
          rw [hread]; exact chunk_input_read_cons chunks _ c2 post2 hrest
        have hadv : ts_lexer_advance lexer =
            { lexer with input := { lexer.input with data := { lexer.input.data with rest := post2 } }
                         chunk_start := lexer.chunk_start + lexer.chunk_size
                         chunk := c2, chunk_size := c2.length, position_in_chunk := 0 } := by
          simp [ts_lexer_advance, h1, hr, hlen]
        rw [hadv]
        refine ⟨⟨hread, rfl, Nat.pos_of_ne_zero hlen,
          Or.inl ⟨pre ++ [c], c2, post2, ?_, rfl, ?_, rfl⟩⟩, ?_⟩
        · rw [hchunks]; simp
        · simp only [hstart, hsize, hchunk]
          simp
        · simp [ts_lexer_position]; omega
    · have hr : lexer.input.read_fn lexer.input.data = ([], lexer.input.data) := by
        rw [hread]; exact chunk_input_read_nil chunks _ hrest
      have hadv : ts_lexer_advance lexer =
          { lexer with input := { lexer.input with data := lexer.input.data }
                       chunk_start := lexer.chunk_start + lexer.chunk_size
                       chunk := [0], chunk_size := 1, position_in_chunk := 0 } := by
        simp [ts_lexer_advance, h1, hr]
      rw [hadv]
      refine ⟨⟨hread, rfl, Nat.zero_lt_one, Or.inr ⟨rfl, hrest, ?_⟩⟩, ?_⟩
      · show chunks.flatten.length ≤ lexer.chunk_start + lexer.chunk_size
        omega
      · simp [ts_lexer_position]; omega

theorem cursor_inv_lookahead (chunks : List (List Nat)) (lexer : ts_lexer chunk_source)
    (h : cursor_inv chunks lexer) :
    ts_lexer_lookahead_char lexer = chunks.flatten.getD (ts_lexer_position lexer) 0 := by
  obtain ⟨_, hsize, hpos, hcase⟩ := h
  rcases hcase with ⟨pre, c, post, hchunks, hchunk, hstart, _⟩ | ⟨hchunk, _, hend⟩
  · have hj : lexer.position_in_chunk < c.length := by rw [← hchunk, ← hsize]; exact hpos
    have hflat : chunks.flatten = pre.flatten ++ (c ++ post.flatten) := by
      rw [hchunks]; simp
    unfold ts_lexer_lookahead_char ts_lexer_position
    rw [hflat, hstart, List.getD_append_right _ _ _ _ (Nat.le_add_right _ _),
      Nat.add_sub_cancel_left, List.getD_append _ _ _ _ hj, hchunk]
  · have hj : lexer.position_in_chunk = 0 := by
      rw [hchunk] at hsize
      simp at hsize
      omega
    unfold ts_lexer_lookahead_char ts_lexer_position
    have hdef : chunks.flatten.getD (lexer.chunk_start + 0) 0 = 0 :=
      List.getD_eq_default _ _ (by simpa using hend)
    rw [hchunk, hj, hdef]
    rfl

theorem cursor_inv_advance_n (chunks : List (List Nat)) (hne : ∀ c ∈ chunks, c ≠ []) (n : Nat) :
    cursor_inv chunks (ts_lexer_advance_n (n + 1) (ts_lexer_make (chunk_input chunks))) ∧
    ts_lexer_position (ts_lexer_advance_n (n + 1) (ts_lexer_make (chunk_input chunks))) = n := by
  induction n with
  | zero => exact cursor_inv_first chunks hne
  | succ n ih =>
    have h := cursor_inv_advance chunks hne _ ih.1
    exact ⟨h.1, by rw [show ts_lexer_advance_n (n + 1 + 1) (ts_lexer_make (chunk_input chunks)) =
      ts_lexer_advance (ts_lexer_advance_n (n + 1) (ts_lexer_make (chunk_input chunks))) from rfl,
      h.2, ih.2]⟩

/-- C10: over a source that yields the non-empty chunks `chunks` and then size
0 for ever, after `n + 1` calls of `ts_lexer_advance` on a new lexer the
position is `n`, the lookahead character is byte `n` of the concatenation of
the chunks when there is one and the null byte otherwise, and the cursor is
inside the current chunk (`position_in_chunk < chunk_size`, `chunk_size` being
the size of `chunk`); the first call leaves the position at 0. -/
theorem C10_chunked_cursor (chunks : List (List Nat)) (hne : ∀ c ∈ chunks, c ≠ []) (n : Nat) :
    ts_lexer_position (ts_lexer_advance_n (n + 1) (ts_lexer_make (chunk_input chunks))) = n ∧
    (∀ h : n < chunks.flatten.length,
      ts_lexer_lookahead_char (ts_lexer_advance_n (n + 1) (ts_lexer_make (chunk_input chunks)))
        = chunks.flatten[n]) ∧
    (chunks.flatten.length ≤ n →
      ts_lexer_lookahead_char (ts_lexer_advance_n (n + 1) (ts_lexer_make (chunk_input chunks)))
        = 0) ∧
    (ts_lexer_advance_n (n + 1) (ts_lexer_make (chunk_input chunks))).position_in_chunk
      < (ts_lexer_advance_n (n + 1) (ts_lexer_make (chunk_input chunks))).chunk_size ∧
    (ts_lexer_advance_n (n + 1) (ts_lexer_make (chunk_input chunks))).chunk_size
      = (ts_lexer_advance_n (n + 1) (ts_lexer_make (chunk_input chunks))).chunk.length ∧
    ts_lexer_position (ts_lexer_advance (ts_lexer_make (chunk_input chunks))) = 0 := by
  have h := cursor_inv_advance_n chunks hne n
  have hla := cursor_inv_lookahead chunks _ h.1
  rw [h.2] at hla
  refine ⟨h.2, ?_, ?_, h.1.2.2.1, h.1.2.1, (cursor_inv_first chunks hne).2⟩
  · intro hn
    rw [hla, List.getD_eq_getElem _ _ hn]
  · intro hn
    rw [hla, List.getD_eq_default _ _ hn]

/-- C10 at the chunks `1+`, `2`: after three calls the cursor is at position 2,
which holds the byte `2`. -/
theorem C10_chunked_cursor_witness :
    (∀ c ∈ [[49, 43], [50]], c ≠ ([] : List Nat)) ∧
    ts_lexer_position (ts_lexer_advance_n 3 (ts_lexer_make (chunk_input [[49, 43], [50]]))) = 2 ∧
    ts_lexer_lookahead_char (ts_lexer_advance_n 3 (ts_lexer_make (chunk_input [[49, 43], [50]])))
      = 50 :=
  ⟨by decide, (C10_chunked_cursor [[49, 43], [50]] (by decide) 2).1,
    (C10_chunked_cursor [[49, 43], [50]] (by decide) 2).2.1 (by decide)⟩

/-! ## Initialisation -/

/-- C9: with `edit = NULL`, `ts_lr_parser_initialize` returns for every prior
parser state, every input and every fuel; it leaves the stack empty, so that
the top state is the root state, the two lookahead slots empty, and a new lexer
over the input sought to position 0 whose first chunk is loaded (the synthetic
null byte when the first read has size 0), with position 0,
`token_start_position` 0 and `token_end_position` 0. -/
theorem C9_initialize_without_edit {σ : Type} (g : Grammar σ) (fuel : Nat)
    (p : ts_lr_parser_t σ) (input : ts_input σ) :
    ∃ q, ts_lr_parser_initialize g fuel p input none = some q ∧
      q.stack.size = 0 ∧ q.stack.toList = [] ∧
      ts_stack_top_state q.stack = ts_stack_root_state ∧
      q.lookahead = none ∧ q.next_lookahead = none ∧
      q.lexer = ts_lexer_advance
        (ts_lexer_make { input with data := input.seek_fn input.data 0 }) ∧
      q.lexer.input.data = (input.read_fn (input.seek_fn input.data 0)).2 ∧
      q.lexer.chunk = (if (input.read_fn (input.seek_fn input.data 0)).1.length = 0 then [0]
        else (input.read_fn (input.seek_fn input.data 0)).1) ∧
      q.lexer.chunk_size = q.lexer.chunk.length ∧
      ts_lexer_position q.lexer = 0 ∧
      q.lexer.token_start_position = 0 ∧ q.lexer.token_end_position = 0 := by
  refine ⟨{ lexer := ts_lexer_advance
              (ts_lexer_make { input with data := input.seek_fn input.data 0 })
            stack := ts_stack_shrink p.stack 0
            lookahead := none
            next_lookahead := none }, ?_, rfl, rfl, rfl, rfl, rfl, rfl, ?_⟩
  · simp [ ts_lr_parser_initialize, ts_lr_parser_breakdown_stack, ts_lr_parser_breakdown_vars,
      ts_stack_shrink]
  · by_cases h0 : (input.read_fn (input.seek_fn input.data 0)).1.length = 0
    · simp [ts_lexer_advance, ts_lexer_make, ts_lexer_position, h0]
    · simp [ts_lexer_advance, ts_lexer_make, ts_lexer_position, h0]

/-! ## The example grammar on concrete texts -/

/-- C1: for the table and recogniser of `expr := expr PLUS NUM | NUM`, a parse
of `1+2+3` with `edit = NULL` on a new parser returns; it returns
the left-associative tree `expr(expr(expr(NUM) PLUS NUM) PLUS NUM)`, the loop
having ended on the Accept action for the end-of-input lookahead, and the five
leaves of that tree are NUM, PLUS, NUM, PLUS, NUM, each of size 1 and
offset 0. -/
theorem C1_parse_1p2p3_left_assoc :
    ∃ q, ts_parse (expr_grammar chunk_source 1) 14 (ts_lr_parser_make (string_input []))
          (string_input text_1p2p3) none = some (some expr_tree_1p2p3, q) ∧
      q.lookahead = some (ts_tree.leaf ts_builtin_sym_end 0 0) ∧
      expr_parse_actions (ts_stack_top_state q.stack) ts_builtin_sym_end
        = ts_parse_action.accept ∧
      expr_tree_1p2p3 =
        ts_tree.node sym_expr 5 0
          [ts_tree.node sym_expr 3 0
            [ts_tree.node sym_expr 1 0 [ts_tree.leaf sym_NUM 1 0],
             ts_tree.leaf sym_PLUS 1 0, ts_tree.leaf sym_NUM 1 0],
           ts_tree.leaf sym_PLUS 1 0, ts_tree.leaf sym_NUM 1 0] ∧
      expr_tree_1p2p3.leaves =
        [ts_tree.leaf sym_NUM 1 0, ts_tree.leaf sym_PLUS 1 0, ts_tree.leaf sym_NUM 1 0,
         ts_tree.leaf sym_PLUS 1 0, ts_tree.leaf sym_NUM 1 0] :=
  ⟨_, rfl, rfl, rfl, rfl, rfl⟩

/-- C2: the incremental parse differs from the parse from scratch. The text
`1*2+3` is parsed, which leaves the stack `[(1, Error)]`; the text is edited at
position 1 into `1+2+3` and parsed with the edit: breakdown keeps the stale
Error node as an already validated prefix and the parse returns an Error node,
while the parse of `1+2+3` from scratch returns the tree of `expr`. -/
theorem C2_incremental_differs_from_scratch :
    (expr_parse_incremental text_1m2p3 text_1p2p3 1).map Prod.fst
      = some (some (ts_tree.error 43 1 [sym_PLUS] 0 0)) ∧
    (expr_parse_scratch text_1p2p3).map Prod.fst = some (some expr_tree_1p2p3) ∧
    (expr_parse_incremental text_1m2p3 text_1p2p3 1).map Prod.fst
      ≠ (expr_parse_scratch text_1p2p3).map Prod.fst := by
  have h1 : (expr_parse_incremental text_1m2p3 text_1p2p3 1).map Prod.fst
      = some (some (ts_tree.error 43 1 [sym_PLUS] 0 0)) := rfl
  have h2 : (expr_parse_scratch text_1p2p3).map Prod.fst = some (some expr_tree_1p2p3) := rfl
  refine ⟨h1, h2, ?_⟩
  rw [h1, h2]
  intro h
  simp [expr_tree_1p2p3] at h

/-- C7, as stated, fails: in the parse of `11` the second token NUM is lexed
from the bytes `[1, 2)` and its action in state 1 is Error; the Error node then
created holds the null byte under the cursor (position 2), not the byte `1`
(49) at position 1 where the rejected token starts. -/
theorem C7_error_char_is_not_token_start :
    ∃ p0 p1 p2 token,
      ts_lr_parser_initialize (expr_grammar chunk_source 1) 0
        (ts_lr_parser_make (string_input [])) (string_input text_11) none = some p0 ∧
      ts_parse_iterate (expr_grammar chunk_source 1) 1 1 p0 = some p1 ∧
      p1.lookahead = none ∧
      ts_parse_fill_lookahead (expr_grammar chunk_source 1) p1 = some (token, p2) ∧
      token = ts_tree.leaf sym_NUM 1 0 ∧
      p2.lexer.token_start_position = 1 ∧ ts_lexer_position p2.lexer = 2 ∧
      (expr_grammar chunk_source 1).ts_parse_actions (ts_stack_top_state p1.stack) token.symbol
        = ts_parse_action.error ∧
      (ts_lr_parser_error_node (expr_grammar chunk_source 1) p2).lookahead_char = some 0 ∧
      text_11.getD 1 0 = 49 ∧
      (expr_parse_scratch text_11).map Prod.fst = some (some (ts_tree.error 0 1 [sym_PLUS] 0 0)) :=
  ⟨_, _, _, _, rfl, rfl, rfl, rfl, rfl, rfl, rfl, rfl, rfl, rfl, rfl⟩

/-- C8, as stated, fails: the reparse of `1*2+3` after `1+2+3` with an edit at
position 1 returns an Error node, but its expected symbols are not the set
of PLUS and end-of-input: end-of-input is not among them. -/
theorem C8_expected_symbols_lack_end :
    ∃ t q, expr_parse_incremental text_1p2p3 text_1m2p3 1 = some (some t, q) ∧
      t.isError = true ∧
      ¬ (∀ s, s ∈ t.expected_inputs ↔ (s = sym_PLUS ∨ s = ts_builtin_sym_end)) := by
  refine ⟨_, _, rfl, rfl, ?_⟩
  intro h
  have h2 := (h ts_builtin_sym_end).2 (Or.inr rfl)
  revert h2
  decide

/-- C8, amended: for the grammar `expr := expr PLUS NUM | NUM` in which `*` is
not a token, after the parse of `1+2+3` the reparse of `1*2+3` with an edit at
position 1 returns an Error node holding the byte `*`, whose expected symbols
are exactly PLUS: the list has the symbols `0 <= i < ts_symbol_count` only, and
end-of-input, whose action in state 1 is a Reduce, is a reserved symbol below
0. -/
theorem C8_reparse_error_root_expects_plus :
    (expr_parse_incremental text_1p2p3 text_1m2p3 1).map Prod.fst
      = some (some (ts_tree.error 42 1 [sym_PLUS] 0 0)) ∧
    (ts_tree.error 42 1 [sym_PLUS] 0 0).isError = true ∧
    (ts_tree.error 42 1 [sym_PLUS] 0 0).expected_inputs = [sym_PLUS] ∧
    (expr_parse_actions 1 ts_builtin_sym_end).isError = false ∧
    ts_builtin_sym_end < 0 :=
  ⟨rfl, rfl, rfl, rfl, by decide⟩

/-! ## Expected symbols -/

theorem expected_fill_length (actions : ts_symbol → ts_parse_action) (n : Nat) :
    (ts_lr_parser_expected_fill actions n).length = ts_lr_parser_expected_count actions n := by
  induction n with
  | zero => rfl
  | succ n ih =>
    by_cases h : (actions (n : Int)).isError = true
    · simp [ts_lr_parser_expected_fill, ts_lr_parser_expected_count, h, ih]
    · simp [ts_lr_parser_expected_fill, ts_lr_parser_expected_count, h, ih]

theorem expected_fill_mem (actions : Int → ts_parse_action) (n : Nat) (s : Int) :
    s ∈ ts_lr_parser_expected_fill actions n ↔
      (0 ≤ s ∧ s < (n : Int) ∧ (actions s).isError = false) := by
  induction n with
  | zero =>
    simp only [ts_lr_parser_expected_fill, List.not_mem_nil, false_iff]
    intro h
    have h1 := h.1
    have h2 := h.2.1
    simp at h2
    omega
  | succ n ih =>
    by_cases h : (actions (n : Int)).isError = true
    · simp only [ts_lr_parser_expected_fill, h, Bool.not_true, Bool.false_eq_true, if_false, ih]
      constructor
      · rintro ⟨h0, h1, h2⟩
        exact ⟨h0, by push_cast; omega, h2⟩
      · rintro ⟨h0, h1, h2⟩
        refine ⟨h0, ?_, h2⟩
        push_cast at h1
        have hne : s ≠ (n : Int) := by
          intro heq
          rw [heq, h] at h2
          exact Bool.noConfusion h2
        omega
    · have h' : (actions (n : Int)).isError = false := by
        cases hb : (actions (n : Int)).isError
        · rfl
        · exact absurd hb h
      simp only [ts_lr_parser_expected_fill, h', Bool.not_false, if_true, List.mem_append,
        List.mem_singleton, ih]
      constructor
      · rintro (⟨h0, h1, h2⟩ | heq)
        · exact ⟨h0, by push_cast; omega, h2⟩
        · rw [heq]
          exact ⟨by omega, by push_cast; omega, h'⟩
      · rintro ⟨h0, h1, h2⟩
        push_cast at h1
        by_cases heq : s = (n : Int)
        · exact Or.inr heq
        · exact Or.inl ⟨h0, by omega, h2⟩

theorem expected_fill_increasing (actions : Int → ts_parse_action) (n : Nat) :
    (ts_lr_parser_expected_fill actions n).Pairwise (fun a b => a < b) := by
  induction n with
  | zero => exact List.Pairwise.nil
  | succ n ih =>
    by_cases h : (actions (n : Int)).isError = true
    · simpa [ts_lr_parser_expected_fill, h] using ih
    · have h' : (actions (n : Int)).isError = false := by
        cases hb : (actions (n : Int)).isError
        · rfl
        · exact absurd hb h
      simp only [ts_lr_parser_expected_fill, h', Bool.not_false, if_true]
      rw [List.pairwise_append]
      refine ⟨ih, List.pairwise_singleton _ _, ?_⟩
      intro a ha b hb
      rw [List.mem_singleton] at hb
      rw [hb]
      exact ((expected_fill_mem actions n a).1 ha).2.1

/-! ## Error recovery -/

theorem unwind_succ_resync {σ : Type} (g : Grammar σ) (stack : ts_stack) (error : ts_tree)
    (symbol : ts_symbol) (i : Nat) (s : state_id)
    (hact : g.ts_parse_actions (stack.entries i).state ts_builtin_sym_error
      = ts_parse_action.shift s)
    (hok : (g.ts_parse_actions s symbol).isError = false) :
    ts_lr_parser_unwind g stack error symbol (i + 1)
      = (some (ts_stack_push (ts_stack_shrink stack (i + 1)) s (some error)), 1) := by
  simp [ts_lr_parser_unwind, hact, hok]

theorem unwind_succ_next {σ : Type} (g : Grammar σ) (stack : ts_stack) (error : ts_tree)
    (symbol : ts_symbol) (i : Nat)
    (hbad : ∀ s, g.ts_parse_actions (stack.entries i).state ts_builtin_sym_error
      = ts_parse_action.shift s → (g.ts_parse_actions s symbol).isError = true) :
    ts_lr_parser_unwind g stack error symbol (i + 1)
      = ((ts_lr_parser_unwind g stack error symbol i).1,
         (ts_lr_parser_unwind g stack error symbol i).2 + 1) := by
  cases hact : g.ts_parse_actions (stack.entries i).state ts_builtin_sym_error with
  | shift s => simp [ts_lr_parser_unwind, hact, hbad s hact]
  | error => simp [ts_lr_parser_unwind, hact]
  | reduce a b c => simp [ts_lr_parser_unwind, hact]
  | accept => simp [ts_lr_parser_unwind, hact]

theorem unwind_cases {σ : Type} (g : Grammar σ) (stack : ts_stack) (symbol : ts_symbol)
    (i : Nat) :
    (∃ s, g.ts_parse_actions (stack.entries i).state ts_builtin_sym_error
        = ts_parse_action.shift s ∧ (g.ts_parse_actions s symbol).isError = false) ∨
    (∀ s, g.ts_parse_actions (stack.entries i).state ts_builtin_sym_error
        = ts_parse_action.shift s → (g.ts_parse_actions s symbol).isError = true) := by
  cases hact : g.ts_parse_actions (stack.entries i).state ts_builtin_sym_error with
  | shift s =>
    cases hok : (g.ts_parse_actions s symbol).isError with
    | false => exact Or.inl ⟨s, rfl, hok⟩
    | true =>
      refine Or.inr ?_
      intro s2 hs2
      cases hs2
      exact hok
  | error => exact Or.inr (fun s hs => by cases hs)
  | reduce a b c => exact Or.inr (fun s hs => by cases hs)
  | accept => exact Or.inr (fun s hs => by cases hs)

theorem unwind_probes_le {σ : Type} (g : Grammar σ) (stack : ts_stack) (error : ts_tree)
    (symbol : ts_symbol) (n : Nat) :
    (ts_lr_parser_unwind g stack error symbol n).2 ≤ n := by
  induction n with
  | zero => exact Nat.le_refl 0
  | succ i ih =>
    rcases unwind_cases g stack symbol i with ⟨s, hact, hok⟩ | hbad
    · rw [unwind_succ_resync g stack error symbol i s hact hok]
      exact Nat.succ_le_succ (Nat.zero_le i)
    · rw [unwind_succ_next g stack error symbol i hbad]
      exact Nat.succ_le_succ ih

theorem unwind_some {σ : Type} (g : Grammar σ) (stack : ts_stack) (error : ts_tree)
    (symbol : ts_symbol) (n : Nat) (result : ts_stack)
    (h : (ts_lr_parser_unwind g stack error symbol n).1 = some result) :
    ∃ i state_after_error, i < n ∧
      g.ts_parse_actions (stack.entries i).state ts_builtin_sym_error
        = ts_parse_action.shift state_after_error ∧
      (g.ts_parse_actions state_after_error symbol).isError = false ∧
      (∀ j, i < j → j < n → ∀ s, g.ts_parse_actions (stack.entries j).state ts_builtin_sym_error
          = ts_parse_action.shift s → (g.ts_parse_actions s symbol).isError = true) ∧
      result = ts_stack_push (ts_stack_shrink stack (i + 1)) state_after_error (some error) := by
  induction n with
  | zero => simp [ts_lr_parser_unwind] at h
  | succ i ih =>
    rcases unwind_cases g stack symbol i with ⟨s, hact, hok⟩ | hbad
    · rw [unwind_succ_resync g stack error symbol i s hact hok] at h
      refine ⟨i, s, Nat.lt_succ_self i, hact, hok, ?_, ?_⟩
      · intro j h1 h2
        omega
      · exact (Option.some.inj h).symm
    · rw [unwind_succ_next g stack error symbol i hbad] at h
      obtain ⟨k, s, hk, hs, hok, hmax, hres⟩ := ih h
      refine ⟨k, s, Nat.lt_succ_of_lt hk, hs, hok, ?_, hres⟩
      intro j h1 h2 s2 hs2
      by_cases hj : j = i
      · subst hj
        exact hbad s2 hs2
      · exact hmax j h1 (by omega) s2 hs2

theorem stack_toList_push_shrink (stack : ts_stack) (i : Nat) (hi : i < stack.size)
    (state : state_id) (node : Option ts_tree) :
    (ts_stack_push (ts_stack_shrink stack (i + 1)) state node).toList
      = stack.toList.take (i + 1) ++ [{ node := node, state := state }] := by
  unfold ts_stack.toList ts_stack_push ts_stack_shrink
  simp only [List.range_succ (i + 1), List.map_append, List.map_cons, List.map_nil, if_true]
  congr 1
  rw [← List.map_take, List.take_range, Nat.min_eq_left (by omega)]
  apply List.map_congr_left
  intro k hk
  rw [List.mem_range] at hk
  rw [if_neg (by omega)]

theorem handle_error_loop_lex_none {σ : Type} (g : Grammar σ) (error : ts_tree) (fuel : Nat)
    (p : ts_lr_parser_t σ) (hlex : g.ts_lex p.lexer ts_lex_state_error = none) :
    ts_lr_parser_handle_error_loop g error (fuel + 1) p = none := by
  simp [ts_lr_parser_handle_error_loop, hlex]

theorem handle_error_loop_end {σ : Type} (g : Grammar σ) (error : ts_tree) (fuel : Nat)
    (p : ts_lr_parser_t σ) (token : ts_tree) (lexer : ts_lexer σ)
    (hlex : g.ts_lex p.lexer ts_lex_state_error = some (token, lexer))
    (hend : token.symbol = ts_builtin_sym_end) :
    ts_lr_parser_handle_error_loop g error (fuel + 1) p
      = some (0, ts_lr_parser_unrecoverable p error token lexer) := by
  simp [ts_lr_parser_handle_error_loop, hlex, hend, ts_lr_parser_unrecoverable]

theorem handle_error_loop_resync {σ : Type} (g : Grammar σ) (error : ts_tree) (fuel : Nat)
    (p : ts_lr_parser_t σ) (token : ts_tree) (lexer : ts_lexer σ) (stack : ts_stack)
    (hlex : g.ts_lex p.lexer ts_lex_state_error = some (token, lexer))
    (hend : token.symbol ≠ ts_builtin_sym_end)
    (hun : (ts_lr_parser_unwind g p.stack error token.symbol p.stack.size).1 = some stack) :
    ts_lr_parser_handle_error_loop g error (fuel + 1) p
      = some (1, { p with lookahead := some token, lexer := lexer, stack := stack }) := by
  simp [ts_lr_parser_handle_error_loop, hlex, hend, hun]

theorem handle_error_loop_next {σ : Type} (g : Grammar σ) (error : ts_tree) (fuel : Nat)
    (p : ts_lr_parser_t σ) (token : ts_tree) (lexer : ts_lexer σ)
    (hlex : g.ts_lex p.lexer ts_lex_state_error = some (token, lexer))
    (hend : token.symbol ≠ ts_builtin_sym_end)
    (hun : (ts_lr_parser_unwind g p.stack error token.symbol p.stack.size).1 = none) :
    ts_lr_parser_handle_error_loop g error (fuel + 1) p
      = ts_lr_parser_handle_error_loop g error fuel
          { p with lookahead := some token, lexer := lexer } := by
  simp [ts_lr_parser_handle_error_loop, hlex, hend, hun]

/-- What a return of the loop of `ts_lr_parser_handle_error` tells: the lookahead is
the token lexed last, and either the value is 0, that token is end-of-input and
the Error node is in entry 0 of the unchanged stack, or the value is 1 and the
stack is the one the unwinding built for that token. -/
theorem handle_error_loop_result {σ : Type} (g : Grammar σ) (error : ts_tree) (fuel : Nat) :
    ∀ (p : ts_lr_parser_t σ) (r : Int) (q : ts_lr_parser_t σ),
      ts_lr_parser_handle_error_loop g error fuel p = some (r, q) →
      ∃ lexer token, g.ts_lex lexer ts_lex_state_error = some (token, q.lexer) ∧
        q.lookahead = some token ∧
        ((r = 0 ∧ token.symbol = ts_builtin_sym_end ∧
            q.stack = ts_stack_set_root_node p.stack error) ∨
         (r = 1 ∧ token.symbol ≠ ts_builtin_sym_end ∧
            (ts_lr_parser_unwind g p.stack error token.symbol p.stack.size).1
              = some q.stack)) := by
  induction fuel with
  | zero =>
    intro p r q h
    simp [ts_lr_parser_handle_error_loop] at h
  | succ fuel ih =>
    intro p r q h
    cases hlex : g.ts_lex p.lexer ts_lex_state_error with
    | none =>
      rw [handle_error_loop_lex_none g error fuel p hlex] at h
      cases h
    | some tl =>
      obtain ⟨token, lexer⟩ := tl
      by_cases hend : token.symbol = ts_builtin_sym_end
      · rw [handle_error_loop_end g error fuel p token lexer hlex hend] at h
        cases h
        exact ⟨p.lexer, token, hlex, rfl, Or.inl ⟨rfl, hend, rfl⟩⟩
      · cases hun : (ts_lr_parser_unwind g p.stack error token.symbol p.stack.size).1 with
        | some stack =>
          rw [handle_error_loop_resync g error fuel p token lexer stack hlex hend hun] at h
          cases h
          exact ⟨p.lexer, token, hlex, rfl, Or.inr ⟨rfl, hend, hun⟩⟩
        | none =>
          rw [handle_error_loop_next g error fuel p token lexer hlex hend hun] at h
          have hrec := ih { p with lookahead := some token, lexer := lexer } r q h
          exact hrec

/-- The loop of `ts_lr_parser_handle_error` returns 0 with the Error node in entry 0
when the token lexed by iteration `n` is end-of-input and no earlier token
resynchronises at any depth. -/
theorem handle_error_loop_unrecoverable {σ : Type} (g : Grammar σ) (error : ts_tree) (n : Nat) :
    ∀ (p : ts_lr_parser_t σ) (token : ts_tree) (lexer : ts_lexer σ),
      ts_lex_error_run g n p.lexer = some (token, lexer) →
      token.symbol = ts_builtin_sym_end →
      (∀ k, k < n → ∀ t l, ts_lex_error_run g k p.lexer = some (t, l) →
        t.symbol ≠ ts_builtin_sym_end ∧
        (ts_lr_parser_unwind g p.stack error t.symbol p.stack.size).1 = none) →
      ∀ fuel, n + 1 ≤ fuel →
        ts_lr_parser_handle_error_loop g error fuel p
          = some (0, ts_lr_parser_unrecoverable p error token lexer) := by
  induction n with
  | zero =>
    intro p token lexer hrun hend _ fuel hfuel
    obtain ⟨f, rfl⟩ : ∃ f, fuel = f + 1 := ⟨fuel - 1, by omega⟩
    exact handle_error_loop_end g error f p token lexer hrun hend
  | succ n ih =>
    intro p token lexer hrun hend hno fuel hfuel
    obtain ⟨f, rfl⟩ : ∃ f, fuel = f + 1 := ⟨fuel - 1, by omega⟩
    cases hlex : g.ts_lex p.lexer ts_lex_state_error with
    | none => simp [ts_lex_error_run, hlex] at hrun
    | some tl =>
      obtain ⟨t0, l0⟩ := tl
      have hrun2 : ts_lex_error_run g n l0 = some (token, lexer) := by
        simpa [ts_lex_error_run, hlex] using hrun
      have h0 := hno 0 (Nat.succ_pos n) t0 l0 hlex
      rw [handle_error_loop_next g error f p t0 l0 hlex h0.1 h0.2]
      have hno2 : ∀ k, k < n → ∀ t l,
          ts_lex_error_run g k ({ p with lookahead := some t0, lexer := l0 } : ts_lr_parser_t σ).lexer
            = some (t, l) →
          t.symbol ≠ ts_builtin_sym_end ∧
          (ts_lr_parser_unwind g
            ({ p with lookahead := some t0, lexer := l0 } : ts_lr_parser_t σ).stack error
            t.symbol ({ p with lookahead := some t0, lexer := l0 } : ts_lr_parser_t σ).stack.size).1
            = none := by
        intro k hk t l hkrun
        have hk2 : ts_lex_error_run g (k + 1) p.lexer = some (t, l) := by
          simpa [ts_lex_error_run, hlex] using hkrun
        exact hno (k + 1) (Nat.succ_lt_succ hk) t l hk2
      exact ih { p with lookahead := some t0, lexer := l0 } token lexer hrun2 hend hno2 f
        (by omega)

/-- The loop of `ts_lr_parser_handle_error` returns, with the value 0 or 1, when the
token lexed by iteration `n` would be end-of-input. -/
theorem handle_error_loop_returns {σ : Type} (g : Grammar σ) (error : ts_tree) (n : Nat) :
    ∀ (p : ts_lr_parser_t σ) (token : ts_tree) (lexer : ts_lexer σ),
      ts_lex_error_run g n p.lexer = some (token, lexer) →
      token.symbol = ts_builtin_sym_end →
      ∀ fuel, n + 1 ≤ fuel →
        ∃ r q, ts_lr_parser_handle_error_loop g error fuel p = some (r, q) ∧
          (r = 0 ∨ r = 1) := by
  induction n with
  | zero =>
    intro p token lexer hrun hend fuel hfuel
    obtain ⟨f, rfl⟩ : ∃ f, fuel = f + 1 := ⟨fuel - 1, by omega⟩
    exact ⟨0, _, handle_error_loop_end g error f p token lexer hrun hend, Or.inl rfl⟩
  | succ n ih =>
    intro p token lexer hrun hend fuel hfuel
    obtain ⟨f, rfl⟩ : ∃ f, fuel = f + 1 := ⟨fuel - 1, by omega⟩
    cases hlex : g.ts_lex p.lexer ts_lex_state_error with
    | none => simp [ts_lex_error_run, hlex] at hrun
    | some tl =>
      obtain ⟨t0, l0⟩ := tl
      have hrun2 : ts_lex_error_run g n l0 = some (token, lexer) := by
        simpa [ts_lex_error_run, hlex] using hrun
      by_cases h0 : t0.symbol = ts_builtin_sym_end
      · exact ⟨0, _, handle_error_loop_end g error f p t0 l0 hlex h0, Or.inl rfl⟩
      · cases hun : (ts_lr_parser_unwind g p.stack error t0.symbol p.stack.size).1 with
        | some stack =>
          exact ⟨1, _, handle_error_loop_resync g error f p t0 l0 stack hlex h0 hun,
            Or.inr rfl⟩
        | none =>
          rw [handle_error_loop_next g error f p t0 l0 hlex h0 hun]
          exact ih { p with lookahead := some t0, lexer := l0 } token lexer hrun2 hend f
            (by omega)

theorem ts_parse_loop_iterate {σ : Type} (g : Grammar σ) (k : Nat) :
    ∀ (fuel : Nat) (p p0 : ts_lr_parser_t σ),
      ts_parse_iterate g k (k + fuel) p = some p0 →
      ts_parse_loop g (k + fuel) p = ts_parse_loop g fuel p0 := by
  induction k with
  | zero =>
    intro fuel p p0 h
    simp [ts_parse_iterate] at h
    rw [Nat.zero_add, h]
  | succ k ih =>
    intro fuel p p0 h
    have hf : k + 1 + fuel = (k + fuel) + 1 := by omega
    rw [hf] at h ⊢
    cases hstep : ts_parse_step g (k + fuel) p with
    | none => simp [ts_parse_iterate, hstep] at h
    | some dp =>
      obtain ⟨done, p1⟩ := dp
      cases done with
      | true => simp [ts_parse_iterate, hstep] at h
      | false =>
        have h2 : ts_parse_iterate g k (k + fuel) p1 = some p0 := by
          simpa [ts_parse_iterate, hstep] using h
        simp only [ts_parse_loop, hstep]
        exact ih fuel p1 p0 h2

theorem ts_stack_top_push (stack : ts_stack) (state : state_id) (node : Option ts_tree) :
    ts_stack_top_state (ts_stack_push stack state node) = state ∧
    ts_stack_top_node (ts_stack_push stack state node) = node := by
  simp [ts_stack_top_state, ts_stack_top_node, ts_stack_push]

/-- C3: when the driver finds the Error action and error recovery lexes the
end-of-input token (in its iteration `n`) before any token resynchronises at any
stack depth, `ts_lr_parser_handle_error` returns 0 with the Error node it
created in `stack.entries[0].node`, this iteration of the loop of `ts_parse`
sets `done`, the loop returns at once, and `ts_stack_root`, the tree that
`ts_parse` returns, is that Error node; for every table, stack and input. -/
theorem C3_unrecoverable_error_root {σ : Type} (g : Grammar σ) (p0 p : ts_lr_parser_t σ)
    (la : ts_tree) (n : Nat) (token : ts_tree) (lexer : ts_lexer σ) (fuel : Nat)
    (hfill : ts_parse_fill_lookahead g p0 = some (la, p))
    (hact : g.ts_parse_actions (ts_stack_top_state p0.stack) la.symbol = ts_parse_action.error)
    (hrun : ts_lex_error_run g n p.lexer = some (token, lexer))
    (hend : token.symbol = ts_builtin_sym_end)
    (hno : ∀ k, k < n → ∀ t l, ts_lex_error_run g k p.lexer = some (t, l) →
      t.symbol ≠ ts_builtin_sym_end ∧
      (ts_lr_parser_unwind g p.stack (ts_lr_parser_error_node g p) t.symbol p.stack.size).1
        = none)
    (hfuel : n + 1 ≤ fuel) :
    ts_lr_parser_handle_error g fuel p
      = some (0, ts_lr_parser_unrecoverable p (ts_lr_parser_error_node g p) token lexer) ∧
    ((ts_lr_parser_unrecoverable p (ts_lr_parser_error_node g p) token lexer).stack.entries 0).node
      = some (ts_lr_parser_error_node g p) ∧
    (ts_lr_parser_unrecoverable p (ts_lr_parser_error_node g p) token lexer).stack.size
      = p.stack.size ∧
    ts_parse_step g fuel p0
      = some (true, ts_lr_parser_unrecoverable p (ts_lr_parser_error_node g p) token lexer) ∧
    ts_parse_loop g (fuel + 1) p0
      = some (ts_lr_parser_unrecoverable p (ts_lr_parser_error_node g p) token lexer) ∧
    ts_stack_root (ts_lr_parser_unrecoverable p (ts_lr_parser_error_node g p) token lexer).stack
      = some (ts_lr_parser_error_node g p) ∧
    (ts_lr_parser_error_node g p).isError = true ∧
    (∀ k pr input edit ps,
      ts_lr_parser_initialize g (k + (fuel + 1)) pr input edit = some ps →
      ts_parse_iterate g k (k + (fuel + 1)) ps = some p0 →
      ts_parse g (k + (fuel + 1)) pr input edit
        = some (some (ts_lr_parser_error_node g p),
            ts_lr_parser_unrecoverable p (ts_lr_parser_error_node g p) token lexer)) := by
  have h1 : ts_lr_parser_handle_error g fuel p
      = some (0, ts_lr_parser_unrecoverable p (ts_lr_parser_error_node g p) token lexer) :=
    handle_error_loop_unrecoverable g (ts_lr_parser_error_node g p) n p token lexer hrun hend
      hno fuel hfuel
  have h2 : ts_parse_step g fuel p0
      = some (true, ts_lr_parser_unrecoverable p (ts_lr_parser_error_node g p) token lexer) := by
    simp [ts_parse_step, hfill, hact, h1]
  have h3 : ts_parse_loop g (fuel + 1) p0
      = some (ts_lr_parser_unrecoverable p (ts_lr_parser_error_node g p) token lexer) := by
    simp [ts_parse_loop, h2]
  have h4 : ts_stack_root
      (ts_lr_parser_unrecoverable p (ts_lr_parser_error_node g p) token lexer).stack
      = some (ts_lr_parser_error_node g p) := by
    simp [ts_stack_root, ts_lr_parser_unrecoverable, ts_stack_set_root_node]
  refine ⟨h1, h4, rfl, h2, h3, h4, rfl, ?_⟩
  intro k pr input edit ps hinit hiter
  have h5 := ts_parse_loop_iterate g k (fuel + 1) ps p0 hiter
  simp [ts_parse, hinit, h5, h3, h4]

/-- C3 at the parse of the text `*` by the example parser: the stack is empty
when the error is found, and the tree returned is the Error node. -/
theorem C3_unrecoverable_error_root_witness :
    ts_parse_fill_lookahead (expr_grammar chunk_source 1)
        (driver_state (expr_grammar chunk_source 1) text_m 0)
      = some (ts_tree.leaf ts_builtin_sym_error 0 0,
          driver_state_lexed (expr_grammar chunk_source 1) text_m 0) ∧
    (ts_parse_loop (expr_grammar chunk_source 1) 3
        (driver_state (expr_grammar chunk_source 1) text_m 0)).map
        (fun q => ts_stack_root q.stack)
      = some (some (ts_lr_parser_error_node (expr_grammar chunk_source 1)
          (driver_state_lexed (expr_grammar chunk_source 1) text_m 0))) ∧
    ts_lr_parser_error_node (expr_grammar chunk_source 1)
        (driver_state_lexed (expr_grammar chunk_source 1) text_m 0)
      = ts_tree.error 42 2 [sym_expr, sym_NUM] 0 0 := by
  have hno : ∀ k, k < 1 → ∀ t l,
      ts_lex_error_run (expr_grammar chunk_source 1) k
        (driver_state_lexed (expr_grammar chunk_source 1) text_m 0).lexer = some (t, l) →
      t.symbol ≠ ts_builtin_sym_end ∧
      (ts_lr_parser_unwind (expr_grammar chunk_source 1)
        (driver_state_lexed (expr_grammar chunk_source 1) text_m 0).stack
        (ts_lr_parser_error_node (expr_grammar chunk_source 1)
          (driver_state_lexed (expr_grammar chunk_source 1) text_m 0)) t.symbol
        (driver_state_lexed (expr_grammar chunk_source 1) text_m 0).stack.size).1 = none := by
    intro k hk t l hkrun
    obtain rfl : k = 0 := by omega
    have h0 : ∃ l0, ts_lex_error_run (expr_grammar chunk_source 1) 0
        (driver_state_lexed (expr_grammar chunk_source 1) text_m 0).lexer
        = some (ts_tree.leaf ts_builtin_sym_error 1 0, l0) := ⟨_, rfl⟩
    obtain ⟨l0, h0⟩ := h0
    rw [h0] at hkrun
    cases hkrun
    exact ⟨by decide, rfl⟩
  have h := C3_unrecoverable_error_root (expr_grammar chunk_source 1)
    (driver_state (expr_grammar chunk_source 1) text_m 0)
    (driver_state_lexed (expr_grammar chunk_source 1) text_m 0)
    (ts_tree.leaf ts_builtin_sym_error 0 0) 1 (ts_tree.leaf ts_builtin_sym_end 0 0) _ 2
    rfl rfl rfl rfl hno (Nat.le_refl 2)
  refine ⟨rfl, ?_, rfl⟩
  rw [h.2.2.2.2.1]
  exact congrArg some h.2.2.2.2.2.1

/-- C4: when `ts_lr_parser_handle_error` returns 1, the lookahead is the token
`t` lexed last in the error lex state, and there is an index `i` of the old
stack such that the action of `entries[i].state` on the reserved error symbol is
a Shift to a state `s` whose action on the symbol of `t` is not Error, no index
above `i` has this property, and the new stack is the first `i + 1` entries of
the old one followed by the entry `(s, Error node)`; the top state is `s`, so the
next lookup of the driver, on the top state and the symbol of `t`, is not
Error, and the driver does not lex before it. -/
theorem C4_innermost_resynchronisation {σ : Type} (g : Grammar σ) (fuel : Nat)
    (p q : ts_lr_parser_t σ) (h : ts_lr_parser_handle_error g fuel p = some (1, q)) :
    ∃ t i s,
      q.lookahead = some t ∧
      (∃ lexer, g.ts_lex lexer ts_lex_state_error = some (t, q.lexer)) ∧
      i < p.stack.size ∧
      g.ts_parse_actions (p.stack.entries i).state ts_builtin_sym_error
        = ts_parse_action.shift s ∧
      (g.ts_parse_actions s t.symbol).isError = false ∧
      (∀ j, i < j → j < p.stack.size → ∀ s2,
        g.ts_parse_actions (p.stack.entries j).state ts_builtin_sym_error
          = ts_parse_action.shift s2 → (g.ts_parse_actions s2 t.symbol).isError = true) ∧
      q.stack = ts_stack_push (ts_stack_shrink p.stack (i + 1)) s
        (some (ts_lr_parser_error_node g p)) ∧
      q.stack.toList = p.stack.toList.take (i + 1) ++
        [{ node := some (ts_lr_parser_error_node g p), state := s }] ∧
      ts_stack_top_state q.stack = s ∧
      (g.ts_parse_actions (ts_stack_top_state q.stack) t.symbol).isError = false ∧
      ts_parse_fill_lookahead g q = some (t, q) := by
  obtain ⟨lexer, t, hlex, hla, hcase⟩ :=
    handle_error_loop_result g (ts_lr_parser_error_node g p) fuel p 1 q h
  rcases hcase with ⟨h0, _, _⟩ | ⟨_, _, hun⟩
  · exact absurd h0 (by decide)
  · obtain ⟨i, s, hi, hact, hok, hmax, hres⟩ :=
      unwind_some g p.stack (ts_lr_parser_error_node g p) t.symbol p.stack.size q.stack hun
    have htop : ts_stack_top_state q.stack = s := by
      rw [hres]; exact (ts_stack_top_push _ _ _).1
    refine ⟨t, i, s, hla, ⟨lexer, hlex⟩, hi, hact, hok, hmax, hres, ?_, htop, ?_, ?_⟩
    · rw [hres]; exact stack_toList_push_shrink p.stack i hi s _
    · rw [htop]; exact hok
    · simp [ts_parse_fill_lookahead, hla]

/-- C4 at the table with a recovery after `NUM`, in the parse of `1*+2`: error
recovery is entered with the stack of states `[1, 5]`; it skips `*`, lexes
`PLUS`, finds no Shift on the error symbol in state 5 (depth 1) and resynchronises
at depth 0, leaving the states `[1, 5]` with the Error node on top and `PLUS` as
lookahead. -/
theorem C4_innermost_resynchronisation_witness :
    ∃ q, ts_lr_parser_handle_error (recover_grammar 1) 2
        (driver_state_lexed (recover_grammar 1) text_1mp2 2) = some (1, q) ∧
      (driver_state_lexed (recover_grammar 1) text_1mp2 2).stack.toList.map
        (fun e => e.state) = [1, 5] ∧
      q.lookahead = some (ts_tree.leaf sym_PLUS 1 0) ∧
      q.stack.toList = [{ node := some (ts_tree.leaf sym_NUM 1 0), state := 1 },
        { node := some (ts_tree.error 42 1 [sym_PLUS] 0 0), state := 5 }] ∧
      ∃ t i s, q.lookahead = some t ∧ i < 2 ∧ q.stack.toList =
        (driver_state_lexed (recover_grammar 1) text_1mp2 2).stack.toList.take (i + 1) ++
        [{ node := some (ts_lr_parser_error_node (recover_grammar 1)
            (driver_state_lexed (recover_grammar 1) text_1mp2 2)), state := s }] := by
  have hq : ∃ q, ts_lr_parser_handle_error (recover_grammar 1) 2
      (driver_state_lexed (recover_grammar 1) text_1mp2 2) = some (1, q) ∧
      q.lookahead = some (ts_tree.leaf sym_PLUS 1 0) ∧
      q.stack.toList = [{ node := some (ts_tree.leaf sym_NUM 1 0), state := 1 },
        { node := some (ts_tree.error 42 1 [sym_PLUS] 0 0), state := 5 }] := ⟨_, rfl, rfl, rfl⟩
  obtain ⟨q, hq1, hq2, hq3⟩ := hq
  obtain ⟨t, i, s, h1, _, h3, _, _, _, _, h8, _⟩ :=
    C4_innermost_resynchronisation (recover_grammar 1) 2
      (driver_state_lexed (recover_grammar 1) text_1mp2 2) q hq1
  exact ⟨q, hq1, rfl, hq2, hq3, t, i, s, h1, h3, h8⟩

/-- C5: from a lexer state from which the lexing in the error lex state yields
the end-of-input token at its call `n + 1`, `ts_lr_parser_handle_error` returns
(within `n + 1` iterations of its loop), and it returns 0 or 1, for every table
and stack; and for every token the unwinding probes at most `stack.size`
depths. -/
theorem C5_error_recovery_terminates {σ : Type} (g : Grammar σ) (p : ts_lr_parser_t σ)
    (n : Nat) (token : ts_tree) (lexer : ts_lexer σ)
    (hrun : ts_lex_error_run g n p.lexer = some (token, lexer))
    (hend : token.symbol = ts_builtin_sym_end) :
    (∀ fuel, n + 1 ≤ fuel →
      ∃ r q, ts_lr_parser_handle_error g fuel p = some (r, q) ∧ (r = 0 ∨ r = 1)) ∧
    (∀ error symbol,
      (ts_lr_parser_unwind g p.stack error symbol p.stack.size).2 ≤ p.stack.size) :=
  ⟨fun fuel hfuel =>
      handle_error_loop_returns g (ts_lr_parser_error_node g p) n p token lexer hrun hend
        fuel hfuel,
    fun error symbol => unwind_probes_le g p.stack error symbol p.stack.size⟩

/-- C5 at the parse of `11` by the example parser: recovery starts at the end of
the text, so that its first token is end-of-input, and it returns 0. -/
theorem C5_error_recovery_terminates_witness :
    (∃ lexer, ts_lex_error_run (expr_grammar chunk_source 1) 0
        (driver_state_lexed (expr_grammar chunk_source 1) text_11 1).lexer
      = some (ts_tree.leaf ts_builtin_sym_end 0 0, lexer)) ∧
    (∃ r q, ts_lr_parser_handle_error (expr_grammar chunk_source 1) 1
        (driver_state_lexed (expr_grammar chunk_source 1) text_11 1) = some (r, q) ∧
      (r = 0 ∨ r = 1)) :=
  ⟨⟨_, rfl⟩,
    (C5_error_recovery_terminates (expr_grammar chunk_source 1)
      (driver_state_lexed (expr_grammar chunk_source 1) text_11 1) 0
      (ts_tree.leaf ts_builtin_sym_end 0 0) _ rfl rfl).1 1 (Nat.le_refl 1)⟩

/-- C6: the list that `ts_lr_parser_expected_symbols` returns has the length
`*count`; it holds exactly the symbols `i` with `0 <= i < ts_symbol_count` whose
action in the top state is not Error, in increasing order and so each once;
the Error node of `ts_lr_parser_handle_error` is made of the cursor byte, this
count and this list, and it is the node that a return of
`ts_lr_parser_handle_error` leaves on the stack (in entry 0 for the value 0, on
top for the value 1). -/
theorem C6_expected_symbols {σ : Type} (g : Grammar σ) (p : ts_lr_parser_t σ) :
    (ts_lr_parser_expected_symbols g p).1.length = (ts_lr_parser_expected_symbols g p).2 ∧
    (∀ s : Int, s ∈ (ts_lr_parser_expected_symbols g p).1 ↔
      (0 ≤ s ∧ s < (g.ts_symbol_count : Int) ∧
        (g.ts_parse_actions (ts_stack_top_state p.stack) s).isError = false)) ∧
    (ts_lr_parser_expected_symbols g p).1.Pairwise (fun a b => a < b) ∧
    (ts_lr_parser_expected_symbols g p).1.Nodup ∧
    ts_lr_parser_error_node g p
      = ts_tree.error (ts_lexer_lookahead_char p.lexer) (ts_lr_parser_expected_symbols g p).2
          (ts_lr_parser_expected_symbols g p).1 0 0 ∧
    (∀ fuel r q, ts_lr_parser_handle_error g fuel p = some (r, q) →
      (r = 0 ∧ (q.stack.entries 0).node = some (ts_lr_parser_error_node g p)) ∨
      (r = 1 ∧ ts_stack_top_node q.stack = some (ts_lr_parser_error_node g p))) := by
  refine ⟨expected_fill_length _ _, fun s => expected_fill_mem _ _ s,
    expected_fill_increasing _ _, ?_, rfl, ?_⟩
  · exact (expected_fill_increasing (g.ts_parse_actions (ts_stack_top_state p.stack))
      g.ts_symbol_count).imp (fun hab => Int.ne_of_lt hab)
  · intro fuel r q h
    obtain ⟨lexer, t, _, _, hcase⟩ :=
      handle_error_loop_result g (ts_lr_parser_error_node g p) fuel p r q h
    rcases hcase with ⟨h0, _, hst⟩ | ⟨h1, _, hun⟩
    · refine Or.inl ⟨h0, ?_⟩
      rw [hst]
      simp [ts_stack_set_root_node]
    · obtain ⟨i, s, _, _, _, _, hres⟩ :=
        unwind_some g p.stack (ts_lr_parser_error_node g p) t.symbol p.stack.size q.stack hun
      refine Or.inr ⟨h1, ?_⟩
      rw [hres]
      exact (ts_stack_top_push _ _ _).2

theorem size_sub_of_le (a b : Nat) (hb : b ≤ a) (ha : a < SIZE_MOD) : size_sub a b = a - b := by
  simp only [size_sub, SIZE_MOD] at *
  omega

/-- C7, amended: the character stored in the Error node is the byte under the
cursor of the lexer when `ts_lr_parser_handle_error` is called. For a token
lexed from the stream bytes `[start, m)` of the chunks `chunks` (the cursor has
been advanced to position `m`, the token started at `start`), that is byte `m`
of the stream, the byte that follows the rejected token (the null byte at the
end of the stream); it is the byte at `start` when the token has size zero. -/
theorem C7_error_char_is_cursor_byte (g : Grammar chunk_source) (chunks : List (List Nat))
    (hne : ∀ c ∈ chunks, c ≠ []) (m start token_end : Nat) (symbol : ts_symbol)
    (p : ts_lr_parser_t chunk_source) (hstart : start ≤ m) (hm : m < SIZE_MOD)
    (hlexer : p.lexer = (ts_lexer_build_node
      { ts_lexer_advance_n (m + 1) (ts_lexer_make (chunk_input chunks)) with
        token_start_position := start, token_end_position := token_end } symbol).2) :
    (ts_lexer_build_node
      { ts_lexer_advance_n (m + 1) (ts_lexer_make (chunk_input chunks)) with
        token_start_position := start, token_end_position := token_end } symbol).1.size
      = m - start ∧
    (ts_lr_parser_error_node g p).lookahead_char = some (ts_lexer_lookahead_char p.lexer) ∧
    (ts_lr_parser_error_node g p).lookahead_char = some (chunks.flatten.getD m 0) ∧
    (start = m →
      (ts_lr_parser_error_node g p).lookahead_char = some (chunks.flatten.getD start 0)) := by
  have hinv := cursor_inv_advance_n chunks hne m
  have hla := cursor_inv_lookahead chunks _ hinv.1
  rw [hinv.2] at hla
  have hchar : ts_lexer_lookahead_char p.lexer = chunks.flatten.getD m 0 := by
    rw [hlexer, ← hla]
    rfl
  have hsize : (ts_lexer_build_node
      { ts_lexer_advance_n (m + 1) (ts_lexer_make (chunk_input chunks)) with
        token_start_position := start, token_end_position := token_end } symbol).1.size
      = m - start := by
    have hpos : ts_lexer_position
        { ts_lexer_advance_n (m + 1) (ts_lexer_make (chunk_input chunks)) with
          token_start_position := start, token_end_position := token_end } = m := hinv.2
    simp only [ts_lexer_build_node, ts_tree_make_leaf, ts_tree.size, hpos]
    exact size_sub_of_le m start hstart hm
  refine ⟨hsize, rfl, ?_, ?_⟩
  · show some (ts_lexer_lookahead_char p.lexer) = some (chunks.flatten.getD m 0)
    rw [hchar]
  · intro heq
    show some (ts_lexer_lookahead_char p.lexer) = some (chunks.flatten.getD start 0)
    rw [hchar, heq]

/-- C7, amended, at the parse of `11`: the rejected token NUM is lexed from the
bytes `[1, 2)`, and the Error node holds byte 2 of the stream, the null byte at
the end. -/
theorem C7_error_char_is_cursor_byte_witness :
    (∀ c ∈ [text_11], c ≠ ([] : List Nat)) ∧
    (driver_state_lexed (expr_grammar chunk_source 1) text_11 1).lookahead
      = some (ts_tree.leaf sym_NUM 1 0) ∧
    (ts_lr_parser_error_node (expr_grammar chunk_source 1)
      (driver_state_lexed (expr_grammar chunk_source 1) text_11 1)).lookahead_char
      = some ([text_11].flatten.getD 2 0) ∧
    [text_11].flatten.getD 2 0 = 0 :=
  ⟨by decide, rfl,
    (C7_error_char_is_cursor_byte (expr_grammar chunk_source 1) [text_11] (by decide) 2 1 1
      sym_NUM (driver_state_lexed (expr_grammar chunk_source 1) text_11 1) (by decide)
      (by decide) rfl).2.2.1, rfl⟩

/-! ## Lexing runs: spans -/

theorem advance_inside {σ : Type} (lexer : ts_lexer σ) :
    (ts_lexer_advance lexer).position_in_chunk < (ts_lexer_advance lexer).chunk_size := by
  unfold ts_lexer_advance
  by_cases h1 : lexer.position_in_chunk + 1 < lexer.chunk_size
  · simp [h1]
  · by_cases h2 : (lexer.input.read_fn lexer.input.data).1.length = 0
    · simp [h1, h2]
    · simp [h1, h2]
      exact Nat.pos_of_ne_zero h2

theorem advance_position {σ : Type} (lexer : ts_lexer σ)
    (h : lexer.position_in_chunk < lexer.chunk_size) :
    ts_lexer_position (ts_lexer_advance lexer) = ts_lexer_position lexer + 1 := by
  unfold ts_lexer_advance ts_lexer_position
  by_cases h1 : lexer.position_in_chunk + 1 < lexer.chunk_size
  · simp [h1]
    omega
  · by_cases h2 : (lexer.input.read_fn lexer.input.data).1.length = 0
    · simp [h1, h2]
      omega
    · simp [h1, h2]
      omega

theorem advance_token_fields {σ : Type} (lexer : ts_lexer σ) :
    (ts_lexer_advance lexer).token_start_position = lexer.token_start_position ∧
    (ts_lexer_advance lexer).token_end_position = lexer.token_end_position := by
  unfold ts_lexer_advance
  by_cases h1 : lexer.position_in_chunk + 1 < lexer.chunk_size
  · simp [h1]
  · by_cases h2 : (lexer.input.read_fn lexer.input.data).1.length = 0
    · simp [h1, h2]
    · simp [h1, h2]

theorem advance_n_shift {σ : Type} (n : Nat) (lexer : ts_lexer σ) :
    ts_lexer_advance_n (n + 1) lexer = ts_lexer_advance_n n (ts_lexer_advance lexer) := by
  induction n with
  | zero => rfl
  | succ n ih =>
    show ts_lexer_advance (ts_lexer_advance_n (n + 1) lexer) = _
    rw [ih]
    rfl

theorem advance_n_spec {σ : Type} (n : Nat) (lexer : ts_lexer σ)
    (h : lexer.position_in_chunk < lexer.chunk_size) :
    ts_lexer_position (ts_lexer_advance_n n lexer) = ts_lexer_position lexer + n ∧
    (ts_lexer_advance_n n lexer).position_in_chunk < (ts_lexer_advance_n n lexer).chunk_size ∧
    (ts_lexer_advance_n n lexer).token_start_position = lexer.token_start_position ∧
    (ts_lexer_advance_n n lexer).token_end_position = lexer.token_end_position := by
  induction n with
  | zero => exact ⟨rfl, h, rfl, rfl⟩
  | succ n ih =>
    obtain ⟨hp, hin, hs, he⟩ := ih
    have hf := advance_token_fields (ts_lexer_advance_n n lexer)
    refine ⟨?_, advance_inside _, ?_, ?_⟩
    · show ts_lexer_position (ts_lexer_advance (ts_lexer_advance_n n lexer)) = _
      rw [advance_position _ hin, hp]
      omega
    · show (ts_lexer_advance (ts_lexer_advance_n n lexer)).token_start_position = _
      rw [hf.1, hs]
    · show (ts_lexer_advance (ts_lexer_advance_n n lexer)).token_end_position = _
      rw [hf.2, he]

/-- The whitespace loop returns the lexer after `k` calls of `ts_lexer_advance`,
where the `k` bytes passed are whitespace and the byte reached is not. -/
theorem skip_whitespace_loop_spec {σ : Type} (fuel : Nat) :
    ∀ (lexer skipped : ts_lexer σ),
      ts_lexer_skip_whitespace_loop fuel lexer = some skipped →
      ∃ k, skipped = ts_lexer_advance_n k lexer ∧
        (∀ j, j < k → isspace (ts_lexer_lookahead_char (ts_lexer_advance_n j lexer)) = true) ∧
        isspace (ts_lexer_lookahead_char skipped) = false := by
  induction fuel with
  | zero =>
    intro lexer skipped h
    simp [ts_lexer_skip_whitespace_loop] at h
  | succ fuel ih =>
    intro lexer skipped h
    by_cases hs : isspace (ts_lexer_lookahead_char lexer) = true
    · have h2 : ts_lexer_skip_whitespace_loop fuel (ts_lexer_advance lexer) = some skipped := by
        simpa [ts_lexer_skip_whitespace_loop, hs] using h
      obtain ⟨k, hk, hall, hlast⟩ := ih _ _ h2
      refine ⟨k + 1, ?_, ?_, hlast⟩
      · rw [advance_n_shift]
        exact hk
      · intro j hj
        cases j with
        | zero => exact hs
        | succ j =>
          rw [advance_n_shift]
          exact hall j (by omega)
    · have h2 : lexer = skipped := by
        simpa [ts_lexer_skip_whitespace_loop, hs] using h
      subst h2
      refine ⟨0, rfl, ?_, ?_⟩
      · intro j hj
        omega
      · simpa using hs

/-- The function `ts_lexer_skip_whitespace` passes `k` whitespace bytes, stops at
a byte that is not whitespace and marks the position reached as the start of
the token. -/
theorem skip_whitespace_spec {σ : Type} (fuel : Nat) (lexer skipped : ts_lexer σ)
    (h : ts_lexer_skip_whitespace fuel lexer = some skipped) :
    ∃ k, ts_lexer_skip_whitespace_loop fuel lexer = some (ts_lexer_advance_n k lexer) ∧
      skipped = { ts_lexer_advance_n k lexer with
        token_start_position := ts_lexer_position (ts_lexer_advance_n k lexer) } ∧
      (∀ j, j < k → isspace (ts_lexer_lookahead_char (ts_lexer_advance_n j lexer)) = true) ∧
      isspace (ts_lexer_lookahead_char (ts_lexer_advance_n k lexer)) = false := by
  unfold ts_lexer_skip_whitespace at h
  cases hl : ts_lexer_skip_whitespace_loop fuel lexer with
  | none => simp [hl] at h
  | some mid =>
    obtain ⟨k, hk, hall, hlast⟩ := skip_whitespace_loop_spec fuel lexer mid hl
    subst hk
    refine ⟨k, rfl, ?_, hall, hlast⟩
    simpa [hl] using h.symm

theorem skip_whitespace_fields {σ : Type} (fuel : Nat) (lexer skipped : ts_lexer σ)
    (hin : lexer.position_in_chunk < lexer.chunk_size)
    (h : ts_lexer_skip_whitespace fuel lexer = some skipped) :
    ∃ k, ts_lexer_position skipped = ts_lexer_position lexer + k ∧
      skipped.position_in_chunk < skipped.chunk_size ∧
      skipped.token_start_position = ts_lexer_position skipped ∧
      skipped.token_end_position = lexer.token_end_position ∧
      ts_lexer_skip_whitespace_loop fuel lexer = some (ts_lexer_advance_n k lexer) ∧
      (∀ j, j < k → isspace (ts_lexer_lookahead_char (ts_lexer_advance_n j lexer)) = true) ∧
      isspace (ts_lexer_lookahead_char (ts_lexer_advance_n k lexer)) = false ∧
      ts_lexer_lookahead_char skipped = ts_lexer_lookahead_char (ts_lexer_advance_n k lexer) := by
  obtain ⟨k, hloop, hk, hall, hlast⟩ := skip_whitespace_spec fuel lexer skipped h
  obtain ⟨hp, hi, _, he⟩ := advance_n_spec k lexer hin
  subst hk
  exact ⟨k, hp, hi, rfl, he, hloop, hall, hlast, rfl⟩

theorem reachable_inv {σ : Type} (input : ts_input σ) (lexer : ts_lexer σ)
    (h : lexer_reachable input lexer) :
    lexer.position_in_chunk < lexer.chunk_size ∧
    lexer.token_end_position ≤ ts_lexer_position lexer := by
  induction h with
  | start =>
    refine ⟨advance_inside _, ?_⟩
    rw [(advance_token_fields _).2]
    exact Nat.zero_le _
  | advance lexer _ ih =>
    refine ⟨advance_inside _, ?_⟩
    rw [(advance_token_fields _).2, advance_position _ ih.1]
    omega
  | skip_whitespace fuel lexer skipped _ hskip ih =>
    obtain ⟨k, hp, hi, _, he, _⟩ := skip_whitespace_fields fuel lexer skipped ih.1 hskip
    refine ⟨hi, ?_⟩
    rw [he, hp]
    omega
  | build_node lexer symbol _ ih =>
    exact ⟨ih.1, Nat.le_refl _⟩

/-- C11: `ts_lexer_build_node(lexer, symbol)` returns the leaf of the given
symbol whose size is `position - token_start_position` and whose offset is
`token_start_position - token_end_position` (unsigned subtractions of the
values before the call), and it changes `token_end_position`, set to the
current position, and no other field. When the call follows
`ts_lexer_skip_whitespace` and `n` calls of `ts_lexer_advance` in a lexing run,
`token_end_position <= token_start_position <= position` holds, and the two
subtractions are exact. -/
theorem C11_build_node_spans {σ : Type} (input : ts_input σ) (lexer skipped : ts_lexer σ)
    (fuel n : Nat) (symbol : ts_symbol)
    (hreach : lexer_reachable input lexer)
    (hskip : ts_lexer_skip_whitespace fuel lexer = some skipped)
    (hpos : ts_lexer_position (ts_lexer_advance_n n skipped) < SIZE_MOD) :
    (∀ (l : ts_lexer σ) (s : ts_symbol),
      ts_lexer_build_node l s
        = (ts_tree.leaf s (size_sub (ts_lexer_position l) l.token_start_position)
            (size_sub l.token_start_position l.token_end_position),
           { l with token_end_position := ts_lexer_position l })) ∧
    (ts_lexer_advance_n n skipped).token_end_position
      ≤ (ts_lexer_advance_n n skipped).token_start_position ∧
    (ts_lexer_advance_n n skipped).token_start_position
      ≤ ts_lexer_position (ts_lexer_advance_n n skipped) ∧
    ts_lexer_build_node (ts_lexer_advance_n n skipped) symbol
      = (ts_tree.leaf symbol
          (ts_lexer_position (ts_lexer_advance_n n skipped)
            - (ts_lexer_advance_n n skipped).token_start_position)
          ((ts_lexer_advance_n n skipped).token_start_position
            - (ts_lexer_advance_n n skipped).token_end_position),
         { ts_lexer_advance_n n skipped with
           token_end_position := ts_lexer_position (ts_lexer_advance_n n skipped) }) := by
  obtain ⟨hin, hle⟩ := reachable_inv input lexer hreach
  obtain ⟨k, hp, hi, hts, hte, _⟩ := skip_whitespace_fields fuel lexer skipped hin hskip
  obtain ⟨hp2, _, hs2, he2⟩ := advance_n_spec n skipped hi
  have h1 : (ts_lexer_advance_n n skipped).token_end_position
      ≤ (ts_lexer_advance_n n skipped).token_start_position := by
    rw [he2, hs2, hte, hts, hp]
    omega
  have h2 : (ts_lexer_advance_n n skipped).token_start_position
      ≤ ts_lexer_position (ts_lexer_advance_n n skipped) := by
    rw [hs2, hts, hp2]
    omega
  refine ⟨fun l s => rfl, h1, h2, ?_⟩
  have h3 : (ts_lexer_advance_n n skipped).token_start_position < SIZE_MOD :=
    Nat.lt_of_le_of_lt h2 hpos
  show (ts_tree.leaf symbol
      (size_sub (ts_lexer_position (ts_lexer_advance_n n skipped))
        (ts_lexer_advance_n n skipped).token_start_position)
      (size_sub (ts_lexer_advance_n n skipped).token_start_position
        (ts_lexer_advance_n n skipped).token_end_position), _) = _
  rw [size_sub_of_le _ _ h2 hpos, size_sub_of_le _ _ h1 h3]

/-- C11 at the second token of the text `11`: the lexer has built the first
token, skips no whitespace and advances once; the leaf has size 1 and offset
0, and `token_end_position` becomes 2. -/
theorem C11_build_node_spans_witness :
    ts_lexer_skip_whitespace 1
        (ts_lexer_build_node (ts_lexer_advance (ts_lexer_advance
          (ts_lexer_make (string_input text_11)))) sym_NUM).2
      = some { (ts_lexer_build_node (ts_lexer_advance (ts_lexer_advance
          (ts_lexer_make (string_input text_11)))) sym_NUM).2 with
          token_start_position := 1 } ∧
    (ts_lexer_build_node (ts_lexer_advance_n 1
        { (ts_lexer_build_node (ts_lexer_advance (ts_lexer_advance
          (ts_lexer_make (string_input text_11)))) sym_NUM).2 with
          token_start_position := 1 }) sym_NUM).1
      = ts_tree.leaf sym_NUM (2 - 1) (1 - 1) :=
  ⟨rfl, congrArg Prod.fst
    (C11_build_node_spans (string_input text_11)
      (ts_lexer_build_node (ts_lexer_advance (ts_lexer_advance
        (ts_lexer_make (string_input text_11)))) sym_NUM).2
      _ 1 1 sym_NUM
      (lexer_reachable.build_node _ _
        (lexer_reachable.advance _ lexer_reachable.start))
      rfl (by decide)).2.2.2⟩

theorem cursor_inv_advance_n_from (chunks : List (List Nat)) (hne : ∀ c ∈ chunks, c ≠ [])
    (lexer : ts_lexer chunk_source) (h : cursor_inv chunks lexer) (k : Nat) :
    cursor_inv chunks (ts_lexer_advance_n k lexer) := by
  induction k with
  | zero => exact h
  | succ k ih => exact (cursor_inv_advance chunks hne _ ih).1

/-- C12, as stated, fails: in the text `1`, null byte, `2` the prologue returns
the end-of-input leaf at position 1, while the lexer still reads the chunk of
the source (no read has returned size 0) and the byte `2` is unread. -/
theorem C12_end_leaf_at_null_byte :
    ∃ lexer skipped,
      expr_lex 1 (ts_lexer_advance (ts_lexer_make (string_input text_1_nul_2))) 0
        = some (ts_tree.leaf sym_NUM 1 0, lexer) ∧
      START_LEXER 1 expr_lex_switch lexer 0
        = some (ts_tree.leaf ts_builtin_sym_end 0 0, skipped) ∧
      ts_lexer_position skipped = 1 ∧
      skipped.chunk = text_1_nul_2 ∧
      text_1_nul_2.getD 2 0 = 50 ∧
      1 < text_1_nul_2.length :=
  ⟨_, _, rfl, rfl, rfl, rfl, rfl, by decide⟩

/-- C12, amended: after the whitespace is skipped, the prologue returns the
end-of-input leaf (symbol end-of-input, size 0, offset 0) if the lookahead byte
is the null byte, and proceeds to token recognition otherwise. Over a source
of chunks the lookahead byte is the byte of the stream at the position
reached, so the leaf is returned when the stream is exhausted, and also at a
null byte of the input; where a byte other than null remains, recognition
runs. -/
theorem C12_prologue_tests_null_byte (chunks : List (List Nat)) (hne : ∀ c ∈ chunks, c ≠ [])
    (lexer skipped : ts_lexer chunk_source) (fuel : Nat)
    (body : ts_lexer chunk_source → state_id → Option (ts_tree × ts_lexer chunk_source))
    (lex_state : state_id)
    (hinv : cursor_inv chunks lexer)
    (hskip : ts_lexer_skip_whitespace fuel lexer = some skipped) :
    ts_lexer_lookahead_char skipped = chunks.flatten.getD (ts_lexer_position skipped) 0 ∧
    (ts_lexer_lookahead_char skipped = 0 →
      START_LEXER fuel body lexer lex_state
        = some (ts_tree.leaf ts_builtin_sym_end 0 0, skipped)) ∧
    (ts_lexer_lookahead_char skipped ≠ 0 →
      START_LEXER fuel body lexer lex_state = body skipped lex_state) ∧
    (chunks.flatten.length ≤ ts_lexer_position skipped →
      START_LEXER fuel body lexer lex_state
        = some (ts_tree.leaf ts_builtin_sym_end 0 0, skipped)) ∧
    (chunks.flatten.getD (ts_lexer_position skipped) 0 ≠ 0 →
      START_LEXER fuel body lexer lex_state = body skipped lex_state) := by
  obtain ⟨k, _, hk, _, _⟩ := skip_whitespace_spec fuel lexer skipped hskip
  have hinv2 : cursor_inv chunks skipped := by
    rw [hk]
    exact cursor_inv_advance_n_from chunks hne lexer hinv k
  have hla := cursor_inv_lookahead chunks skipped hinv2
  have hzero : ts_lexer_lookahead_char skipped = 0 →
      START_LEXER fuel body lexer lex_state
        = some (ts_tree.leaf ts_builtin_sym_end 0 0, skipped) := by
    intro h0
    simp [START_LEXER, hskip, h0, ts_tree_make_leaf]
  have hnz : ts_lexer_lookahead_char skipped ≠ 0 →
      START_LEXER fuel body lexer lex_state = body skipped lex_state := by
    intro h0
    simp [START_LEXER, hskip, h0]
  refine ⟨hla, hzero, hnz, ?_, ?_⟩
  · intro hend
    apply hzero
    rw [hla]
    exact List.getD_eq_default _ _ hend
  · intro hbyte
    apply hnz
    rw [hla]
    exact hbyte

/-- C12, amended, on the text `1`: after the token the stream is exhausted and
the prologue returns the end-of-input leaf. -/
theorem C12_prologue_tests_null_byte_witness :
    (∀ c ∈ [text_1], c ≠ ([] : List Nat)) ∧
    START_LEXER 1 expr_lex_switch
        (ts_lexer_advance_n 2 (ts_lexer_make (chunk_input [text_1]))) 0
      = some (ts_tree.leaf ts_builtin_sym_end 0 0,
          { ts_lexer_advance_n 2 (ts_lexer_make (chunk_input [text_1])) with
            token_start_position := 1 }) :=
  ⟨by decide,
    (C12_prologue_tests_null_byte [text_1] (by decide)
      (ts_lexer_advance_n 2 (ts_lexer_make (chunk_input [text_1])))
      { ts_lexer_advance_n 2 (ts_lexer_make (chunk_input [text_1])) with
        token_start_position := 1 } 1 expr_lex_switch 0
      (cursor_inv_advance_n [text_1] (by decide) 1).1 rfl).2.2.2.1 (by decide)⟩

theorem span_sum_append (a b : List ts_tree) : span_sum (a ++ b) = span_sum a + span_sum b := by
  simp [span_sum]

theorem span_sum_single (t : ts_tree) : span_sum [t] = t.offset + t.size := by
  simp [span_sum]

theorem span_sum_cons (t : ts_tree) (ts : List ts_tree) :
    span_sum (t :: ts) = (t.offset + t.size) + span_sum ts := by
  simp [span_sum]

/-- One token of a run, from a lexer whose cursor is inside its chunk: the
positions after it. -/
theorem lex_token_positions {σ : Type} (lexer next : ts_lexer σ) (r : lex_request) (t : ts_tree)
    (hin : lexer.position_in_chunk < lexer.chunk_size)
    (h : lex_token lexer r = some (t, next)) :
    ∃ k skipped, ts_lexer_skip_whitespace r.fuel lexer = some skipped ∧
      ts_lexer_position skipped = ts_lexer_position lexer + k ∧
      skipped.token_start_position = ts_lexer_position skipped ∧
      ts_lexer_skip_whitespace_loop r.fuel lexer = some (ts_lexer_advance_n k lexer) ∧
      (∀ j, j < k → isspace (ts_lexer_lookahead_char (ts_lexer_advance_n j lexer)) = true) ∧
      isspace (ts_lexer_lookahead_char (ts_lexer_advance_n k lexer)) = false ∧
      ts_lexer_position next = ts_lexer_position lexer + k + r.advances ∧
      next.position_in_chunk < next.chunk_size ∧
      next.token_end_position = ts_lexer_position next ∧
      t = ts_tree.leaf r.symbol
        (size_sub (ts_lexer_position next) (ts_lexer_position skipped))
        (size_sub (ts_lexer_position skipped) lexer.token_end_position) := by
  unfold lex_token at h
  cases hs : ts_lexer_skip_whitespace r.fuel lexer with
  | none => simp [hs] at h
  | some skipped =>
    obtain ⟨k, hp, hi, hts, hte, hloop, hall, hlast, _⟩ :=
      skip_whitespace_fields r.fuel lexer skipped hin hs
    obtain ⟨hp2, hi2, hs2, he2⟩ := advance_n_spec r.advances skipped hi
    have h2 : ts_lexer_build_node (ts_lexer_advance_n r.advances skipped) r.symbol
        = (t, next) := by
      simpa [hs] using h
    have ht : t = (ts_lexer_build_node (ts_lexer_advance_n r.advances skipped) r.symbol).1 := by
      rw [h2]
    have hn : next = (ts_lexer_build_node (ts_lexer_advance_n r.advances skipped) r.symbol).2 := by
      rw [h2]
    have hpn : ts_lexer_position next
        = ts_lexer_position (ts_lexer_advance_n r.advances skipped) := by
      rw [hn]; rfl
    refine ⟨k, skipped, rfl, hp, hts, hloop, hall, hlast, ?_, ?_, ?_, ?_⟩
    · rw [hpn, hp2, hp]
    · rw [hn]; exact hi2
    · rw [hn]; rfl
    · rw [ht, hpn]
      show ts_tree.leaf r.symbol
        (size_sub (ts_lexer_position (ts_lexer_advance_n r.advances skipped))
          (ts_lexer_advance_n r.advances skipped).token_start_position)
        (size_sub (ts_lexer_advance_n r.advances skipped).token_start_position
          (ts_lexer_advance_n r.advances skipped).token_end_position) = _
      rw [hs2, he2, hts, hte]

/-- One token of a run, from a lexer at the end of the previous token: the leaf
has the number of bytes scanned as size and the number of bytes skipped as
offset. -/
theorem lex_token_leaf {σ : Type} (lexer next : ts_lexer σ) (r : lex_request) (t : ts_tree)
    (hin : lexer.position_in_chunk < lexer.chunk_size)
    (hend : lexer.token_end_position = ts_lexer_position lexer)
    (h : lex_token lexer r = some (t, next))
    (hpos : ts_lexer_position next < SIZE_MOD) :
    ∃ k skipped, ts_lexer_skip_whitespace r.fuel lexer = some skipped ∧
      ts_lexer_position skipped = ts_lexer_position lexer + k ∧
      skipped.token_start_position = ts_lexer_position skipped ∧
      ts_lexer_skip_whitespace_loop r.fuel lexer = some (ts_lexer_advance_n k lexer) ∧
      (∀ j, j < k → isspace (ts_lexer_lookahead_char (ts_lexer_advance_n j lexer)) = true) ∧
      isspace (ts_lexer_lookahead_char (ts_lexer_advance_n k lexer)) = false ∧
      ts_lexer_position next = ts_lexer_position lexer + k + r.advances ∧
      t = ts_tree.leaf r.symbol r.advances k := by
  obtain ⟨k, skipped, hs, hp, hts, hloop, hall, hlast, hpn, _, _, ht⟩ :=
    lex_token_positions lexer next r t hin h
  refine ⟨k, skipped, hs, hp, hts, hloop, hall, hlast, hpn, ?_⟩
  rw [ht, hend, size_sub_of_le _ _ (by omega) hpos, size_sub_of_le _ _ (by omega) (by omega),
    hpn, hp]
  congr 1 <;> omega

/-- A run from a lexer at the end of a token: the spans of the leaves add up to
the distance covered, and the lexer is again at the end of a token. -/
theorem lex_run_spans {σ : Type} (reqs : List lex_request) :
    ∀ (lexer final : ts_lexer σ) (leaves : List ts_tree),
      lexer.position_in_chunk < lexer.chunk_size →
      lexer.token_end_position = ts_lexer_position lexer →
      lex_run reqs lexer = some (leaves, final) →
      ts_lexer_position final < SIZE_MOD →
      ts_lexer_position lexer + span_sum leaves = ts_lexer_position final ∧
      final.position_in_chunk < final.chunk_size ∧
      final.token_end_position = ts_lexer_position final := by
  induction reqs with
  | nil =>
    intro lexer final leaves hin hend h _
    simp [lex_run] at h
    obtain ⟨h1, h2⟩ := h
    subst h1 h2
    exact ⟨by simp [span_sum], hin, hend⟩
  | cons r rest ih =>
    intro lexer final leaves hin hend h hpos
    unfold lex_run at h
    cases ht : lex_token lexer r with
    | none => simp [ht] at h
    | some tn =>
      obtain ⟨t, next⟩ := tn
      cases hr : lex_run rest next with
      | none => simp [ht, hr] at h
      | some ls =>
        obtain ⟨ls, fin⟩ := ls
        simp [ht, hr] at h
        obtain ⟨h1, h2⟩ := h
        subst h1 h2
        obtain ⟨k, skipped, _, _, _, _, _, _, hpn, hin2, hend2, _⟩ :=
          lex_token_positions lexer next r t hin ht
        obtain ⟨hsum, hin3, hend3⟩ := ih next fin ls hin2 hend2 hr hpos
        obtain ⟨k2, _, _, _, _, _, _, _, _, hleaf⟩ :=
          lex_token_leaf lexer next r t hin hend ht (by omega)
        refine ⟨?_, hin3, hend3⟩
        rw [span_sum_cons, hleaf]
        simp only [ts_tree.offset, ts_tree.size]
        have hk : k2 = k := by
          have := hleaf
          omega
        omega

theorem lex_run_append {σ : Type} (a b : List lex_request) :
    ∀ (lexer final : ts_lexer σ) (leaves : List ts_tree),
      lex_run (a ++ b) lexer = some (leaves, final) →
      ∃ l1 mid l2, lex_run a lexer = some (l1, mid) ∧ lex_run b mid = some (l2, final) ∧
        leaves = l1 ++ l2 := by
  induction a with
  | nil =>
    intro lexer final leaves h
    exact ⟨[], lexer, leaves, rfl, h, rfl⟩
  | cons r rest ih =>
    intro lexer final leaves h
    rw [List.cons_append] at h
    unfold lex_run at h
    cases ht : lex_token lexer r with
    | none => simp [ht] at h
    | some tn =>
      obtain ⟨t, next⟩ := tn
      cases hr : lex_run (rest ++ b) next with
      | none => simp [ht, hr] at h
      | some ls =>
        obtain ⟨ls, fin⟩ := ls
        simp [ht, hr] at h
        obtain ⟨h1, h2⟩ := h
        subst h1 h2
        obtain ⟨l1, mid, l2, ha, hb, hl⟩ := ih next fin ls hr
        refine ⟨t :: l1, mid, l2, ?_, hb, ?_⟩
        · simp [lex_run, ht, ha]
        · rw [hl]; rfl

theorem lex_run_inv {σ : Type} (reqs : List lex_request) :
    ∀ (lexer final : ts_lexer σ) (leaves : List ts_tree),
      lexer.position_in_chunk < lexer.chunk_size →
      lexer.token_end_position = ts_lexer_position lexer →
      lex_run reqs lexer = some (leaves, final) →
      ts_lexer_position lexer ≤ ts_lexer_position final ∧
      final.position_in_chunk < final.chunk_size ∧
      final.token_end_position = ts_lexer_position final := by
  induction reqs with
  | nil =>
    intro lexer final leaves hin hend h
    simp [lex_run] at h
    obtain ⟨_, h2⟩ := h
    subst h2
    exact ⟨Nat.le_refl _, hin, hend⟩
  | cons r rest ih =>
    intro lexer final leaves hin hend h
    unfold lex_run at h
    cases ht : lex_token lexer r with
    | none => simp [ht] at h
    | some tn =>
      obtain ⟨t, next⟩ := tn
      cases hr : lex_run rest next with
      | none => simp [ht, hr] at h
      | some ls =>
        obtain ⟨ls, fin⟩ := ls
        simp [ht, hr] at h
        obtain ⟨_, h2⟩ := h
        subst h2
        obtain ⟨k, skipped, _, _, _, _, _, _, hpn, hin2, hend2, _⟩ :=
          lex_token_positions lexer next r t hin ht
        obtain ⟨hle, hin3, hend3⟩ := ih next fin ls hin2 hend2 hr
        exact ⟨by omega, hin3, hend3⟩

theorem start_lexer_fields {σ : Type} (input : ts_input σ) :
    (ts_lexer_advance (ts_lexer_make input)).position_in_chunk
      < (ts_lexer_advance (ts_lexer_make input)).chunk_size ∧
    (ts_lexer_advance (ts_lexer_make input)).token_end_position = 0 ∧
    ts_lexer_position (ts_lexer_advance (ts_lexer_make input)) = 0 := by
  refine ⟨advance_inside _, (advance_token_fields _).2, ?_⟩
  unfold ts_lexer_advance ts_lexer_position ts_lexer_make
  by_cases h2 : (input.read_fn input.data).1.length = 0
  · simp [h2]
  · simp [h2]

/-- C13: in a lexing run from the lexer that initialisation makes, in which
every token is produced by `ts_lexer_skip_whitespace`, some calls of
`ts_lexer_advance` and `ts_lexer_build_node`, the sum of `offset + size` over
the leaves produced equals `token_end_position`, the current position; and for
each leaf of the run, the sum over the earlier leaves plus its offset is the
position where the whitespace loop stopped, the start of its text, its size is
the number of bytes advanced over, and the sum including it is the start plus
the size. Positions are below `2^64`. -/
theorem C13_gap_free_spans {σ : Type} (input : ts_input σ) (reqs : List lex_request)
    (leaves : List ts_tree) (final : ts_lexer σ)
    (hrun : lex_run reqs (ts_lexer_advance (ts_lexer_make input)) = some (leaves, final))
    (hpos : ts_lexer_position final < SIZE_MOD) :
    span_sum leaves = final.token_end_position ∧
    final.token_end_position = ts_lexer_position final ∧
    (∀ pre r post, reqs = pre ++ r :: post →
      ∃ before t after mid skipped,
        leaves = before ++ t :: after ∧
        lex_run pre (ts_lexer_advance (ts_lexer_make input)) = some (before, mid) ∧
        ts_lexer_skip_whitespace r.fuel mid = some skipped ∧
        skipped.token_start_position = ts_lexer_position skipped ∧
        span_sum before + t.offset = ts_lexer_position skipped ∧
        t.size = r.advances ∧
        span_sum (before ++ [t]) = ts_lexer_position skipped + t.size) := by
  obtain ⟨hin0, hend0, hp0⟩ := start_lexer_fields input
  have hend0b : (ts_lexer_advance (ts_lexer_make input)).token_end_position
      = ts_lexer_position (ts_lexer_advance (ts_lexer_make input)) := by
    rw [hend0, hp0]
  obtain ⟨hsum, _, hendf⟩ := lex_run_spans reqs _ final leaves hin0 hend0b hrun hpos
  refine ⟨by rw [hendf]; omega, hendf, ?_⟩
  intro pre r post hreqs
  subst hreqs
  obtain ⟨before, mid, l2, ha, hb, hl⟩ := lex_run_append pre (r :: post) _ final leaves hrun
  unfold lex_run at hb
  cases ht : lex_token mid r with
  | none => simp [ht] at hb
  | some tn =>
    obtain ⟨t, next⟩ := tn
    cases hr : lex_run post next with
    | none => simp [ht, hr] at hb
    | some ls =>
      obtain ⟨after, fin⟩ := ls
      simp [ht, hr] at hb
      obtain ⟨h1, h2⟩ := hb
      subst h1 h2
      obtain ⟨_, hin1, hend1⟩ := lex_run_inv pre _ mid before hin0 hend0b ha
      obtain ⟨_, _, _, _, _, _, _, _, hpn, hin2, hend2, _⟩ :=
        lex_token_positions mid next r t hin1 ht
      obtain ⟨hle, _, _⟩ := lex_run_inv post next fin after hin2 hend2 hr
      obtain ⟨k, skipped, hs, hp, hts, _, _, _, _, hleaf⟩ :=
        lex_token_leaf mid next r t hin1 hend1 ht (by omega)
      obtain ⟨hsum1, _, _⟩ := lex_run_spans pre _ mid before hin0 hend0b ha (by omega)
      refine ⟨before, t, after, mid, skipped, hl, ha, hs, hts, ?_, ?_, ?_⟩
      · rw [hleaf]; simp only [ts_tree.offset]; omega
      · rw [hleaf]; rfl
      · rw [span_sum_append, span_sum_single, hleaf]
        simp only [ts_tree.offset, ts_tree.size]
        omega

/-- C13 on the text `1`, blank, `2`: the run of two tokens, the second after one
byte of whitespace, gives leaves whose spans add up to 3, the final position. -/
theorem C13_gap_free_spans_witness :
    ∃ final,
      lex_run [{ fuel := 1, advances := 1, symbol := sym_NUM },
               { fuel := 2, advances := 1, symbol := sym_NUM }]
          (ts_lexer_advance (ts_lexer_make (string_input [49, 32, 50])))
        = some ([ts_tree.leaf sym_NUM 1 0, ts_tree.leaf sym_NUM 1 1], final) ∧
      span_sum [ts_tree.leaf sym_NUM 1 0, ts_tree.leaf sym_NUM 1 1]
        = final.token_end_position ∧
      final.token_end_position = 3 := by
  have h : ∃ final,
      lex_run [{ fuel := 1, advances := 1, symbol := sym_NUM },
               { fuel := 2, advances := 1, symbol := sym_NUM }]
          (ts_lexer_advance (ts_lexer_make (string_input [49, 32, 50])))
        = some ([ts_tree.leaf sym_NUM 1 0, ts_tree.leaf sym_NUM 1 1], final) ∧
      ts_lexer_position final < SIZE_MOD ∧ final.token_end_position = 3 :=
    ⟨_, rfl, by decide, rfl⟩
  obtain ⟨final, hrun, hpos, h3⟩ := h
  exact ⟨final, hrun,
    (C13_gap_free_spans (string_input [49, 32, 50]) _ _ final hrun hpos).1, h3⟩

/-- C14, as stated, fails: on the text `1`, blank, the lexer returns the leaf of
`1` and then the end-of-input leaf with offset 0, although it skipped one byte
of whitespace before it; the spans add up to 1, and the input has length 2. -/
theorem C14_end_leaf_drops_whitespace :
    lex_until_end (expr_grammar chunk_source 2) 0 3
        (ts_lexer_advance (ts_lexer_make (string_input text_1_blank)))
      = some [ts_tree.leaf sym_NUM 1 0, ts_tree.leaf ts_builtin_sym_end 0 0] ∧
    span_sum [ts_tree.leaf sym_NUM 1 0, ts_tree.leaf ts_builtin_sym_end 0 0] = 1 ∧
    text_1_blank.length = 2 ∧
    (∃ lexer skipped,
      expr_lex 2 (ts_lexer_advance (ts_lexer_make (string_input text_1_blank))) 0
        = some (ts_tree.leaf sym_NUM 1 0, lexer) ∧
      expr_lex 2 lexer 0 = some (ts_tree.leaf ts_builtin_sym_end 0 0, skipped) ∧
      ts_lexer_position lexer = 1 ∧ ts_lexer_position skipped = 2 ∧
      isspace (ts_lexer_lookahead_char lexer) = true) :=
  ⟨rfl, rfl, rfl, _, _, rfl, rfl, rfl, rfl, rfl⟩

/-- C14, amended: every leaf built by `ts_lexer_build_node` in a lexing run has
as offset the number of whitespace bytes that `ts_lexer_skip_whitespace`
passed between the end of the previous token and its start, and as size the
number of bytes advanced over. The end-of-input leaf is made with offset 0 and
size 0: the whitespace skipped before it is in no offset, and the sum of
`offset + size` over all leaves returned, that leaf included, is the position
of the end of the last token, which is the position where end-of-input was
found less the whitespace skipped before it. -/
theorem C14_offsets_count_skipped_whitespace {σ : Type} (input : ts_input σ)
    (reqs : List lex_request) (leaves : List ts_tree) (lexer : ts_lexer σ)
    (hrun : lex_run reqs (ts_lexer_advance (ts_lexer_make input)) = some (leaves, lexer))
    (hpos : ts_lexer_position lexer < SIZE_MOD) :
    (∀ r t next, lex_token lexer r = some (t, next) → ts_lexer_position next < SIZE_MOD →
      ∃ k, ts_lexer_skip_whitespace_loop r.fuel lexer = some (ts_lexer_advance_n k lexer) ∧
        (∀ j, j < k →
          isspace (ts_lexer_lookahead_char (ts_lexer_advance_n j lexer)) = true) ∧
        isspace (ts_lexer_lookahead_char (ts_lexer_advance_n k lexer)) = false ∧
        t.offset = k ∧ t.size = r.advances) ∧
    (∀ fuel body lex_state skipped,
      ts_lexer_skip_whitespace fuel lexer = some skipped →
      ts_lexer_lookahead_char skipped = 0 →
      START_LEXER fuel body lexer lex_state
        = some (ts_tree.leaf ts_builtin_sym_end 0 0, skipped) ∧
      span_sum (leaves ++ [ts_tree.leaf ts_builtin_sym_end 0 0]) = ts_lexer_position lexer ∧
      skipped.token_end_position = ts_lexer_position lexer ∧
      ∃ k, ts_lexer_skip_whitespace_loop fuel lexer = some (ts_lexer_advance_n k lexer) ∧
        (∀ j, j < k →
          isspace (ts_lexer_lookahead_char (ts_lexer_advance_n j lexer)) = true) ∧
        span_sum (leaves ++ [ts_tree.leaf ts_builtin_sym_end 0 0]) + k
          = ts_lexer_position skipped) := by
  obtain ⟨hin0, hend0, hp0⟩ := start_lexer_fields input
  have hend0b : (ts_lexer_advance (ts_lexer_make input)).token_end_position
      = ts_lexer_position (ts_lexer_advance (ts_lexer_make input)) := by
    rw [hend0, hp0]
  obtain ⟨hsum, hin, hend⟩ := lex_run_spans reqs _ lexer leaves hin0 hend0b hrun hpos
  constructor
  · intro r t next ht hposn
    obtain ⟨k, _, _, _, _, hloop, hall, hlast, _, hleaf⟩ :=
      lex_token_leaf lexer next r t hin hend ht hposn
    exact ⟨k, hloop, hall, hlast, by rw [hleaf]; rfl, by rw [hleaf]; rfl⟩
  · intro fuel body lex_state skipped hskip h0
    obtain ⟨k, hp, _, _, hte, hloop, hall, _, _⟩ :=
      skip_whitespace_fields fuel lexer skipped hin hskip
    have hs : span_sum (leaves ++ [ts_tree.leaf ts_builtin_sym_end 0 0])
        = ts_lexer_position lexer := by
      rw [span_sum_append, span_sum_single]
      simp only [ts_tree.offset, ts_tree.size]
      omega
    refine ⟨?_, hs, by rw [hte, hend], k, hloop, hall, by rw [hs, hp]⟩
    simp [START_LEXER, hskip, h0, ts_tree_make_leaf]

/-- C14, amended, on the text `1`, blank: after the token `1` the prologue skips
one byte and returns the end-of-input leaf; the spans of the two leaves add up
to 1, the end of the token. -/
theorem C14_offsets_count_skipped_whitespace_witness :
    ∃ lexer skipped,
      lex_run [{ fuel := 1, advances := 1, symbol := sym_NUM }]
          (ts_lexer_advance (ts_lexer_make (string_input text_1_blank)))
        = some ([ts_tree.leaf sym_NUM 1 0], lexer) ∧
      ts_lexer_skip_whitespace 2 lexer = some skipped ∧
      START_LEXER 2 expr_lex_switch lexer 0
        = some (ts_tree.leaf ts_builtin_sym_end 0 0, skipped) ∧
      span_sum ([ts_tree.leaf sym_NUM 1 0] ++ [ts_tree.leaf ts_builtin_sym_end 0 0])
        = ts_lexer_position lexer ∧
      ts_lexer_position lexer = 1 ∧ ts_lexer_position skipped = 2 := by
  have h : ∃ lexer skipped,
      lex_run [{ fuel := 1, advances := 1, symbol := sym_NUM }]
          (ts_lexer_advance (ts_lexer_make (string_input text_1_blank)))
        = some ([ts_tree.leaf sym_NUM 1 0], lexer) ∧
      ts_lexer_skip_whitespace 2 lexer = some skipped ∧
      ts_lexer_position lexer < SIZE_MOD ∧ ts_lexer_lookahead_char skipped = 0 ∧
      ts_lexer_position lexer = 1 ∧ ts_lexer_position skipped = 2 :=
    ⟨_, _, rfl, rfl, by decide, rfl, rfl, rfl⟩
  obtain ⟨lexer, skipped, hrun, hskip, hpos, h0, h1, h2⟩ := h
  have hc := (C14_offsets_count_skipped_whitespace (string_input text_1_blank) _ _ lexer hrun
    hpos).2 2 expr_lex_switch 0 skipped hskip h0
  exact ⟨lexer, skipped, hrun, hskip, hc.1, hc.2.1, h1, h2⟩

/-! ## Reduce and shift: the lookahead slots -/

theorem reduce_spec {σ : Type} (p p1 : ts_lr_parser_t σ) (symbol : ts_symbol)
    (child_count : Int) (flags : List Int)
    (h : ts_lr_parser_reduce p symbol child_count flags = some p1) :
    ∃ node stack, ts_stack_reduce p.stack symbol child_count flags = some (node, stack) ∧
      p1 = { p with next_lookahead := p.lookahead, lookahead := some node, stack := stack } := by
  unfold ts_lr_parser_reduce at h
  cases hr : ts_stack_reduce p.stack symbol child_count flags with
  | none => simp [hr] at h
  | some ns =>
    obtain ⟨node, stack⟩ := ns
    refine ⟨node, stack, rfl, ?_⟩
    simpa [hr] using h.symm

/-- C15: `ts_lr_parser_reduce` leaves the lexer unchanged, makes the node
returned by `ts_stack_reduce` the lookahead and keeps the former lookahead in
`next_lookahead`; the `ts_lr_parser_shift(s)` that follows pushes `(s, reduced
node)` as the top entry, restores the former lookahead, empties
`next_lookahead` and leaves the lexer unchanged. A shift with an empty
`next_lookahead` leaves the lookahead empty, and the next iteration of the
driver then calls `ts_lex` in the lex state of the new top state. -/
theorem C15_reduce_consumes_no_input {σ : Type} (p p1 : ts_lr_parser_t σ) (symbol : ts_symbol)
    (child_count : Int) (flags : List Int) (s : state_id)
    (h : ts_lr_parser_reduce p symbol child_count flags = some p1) :
    p1.lexer = p.lexer ∧
    (∃ node stack, ts_stack_reduce p.stack symbol child_count flags = some (node, stack) ∧
      p1.lookahead = some node ∧ p1.stack = stack) ∧
    p1.next_lookahead = p.lookahead ∧
    (ts_lr_parser_shift p1 s).stack = ts_stack_push p1.stack s p1.lookahead ∧
    ts_stack_top_state (ts_lr_parser_shift p1 s).stack = s ∧
    ts_stack_top_node (ts_lr_parser_shift p1 s).stack = p1.lookahead ∧
    (ts_lr_parser_shift p1 s).lookahead = p.lookahead ∧
    (ts_lr_parser_shift p1 s).next_lookahead = none ∧
    (ts_lr_parser_shift p1 s).lexer = p.lexer ∧
    (∀ (g : Grammar σ) (q : ts_lr_parser_t σ) (s2 : state_id), q.next_lookahead = none →
      (ts_lr_parser_shift q s2).lookahead = none ∧
      (ts_lr_parser_shift q s2).lexer = q.lexer ∧
      (g.ts_lex q.lexer (g.ts_lex_states s2) = none →
        ts_parse_fill_lookahead g (ts_lr_parser_shift q s2) = none) ∧
      (∀ t l, g.ts_lex q.lexer (g.ts_lex_states s2) = some (t, l) →
        ts_parse_fill_lookahead g (ts_lr_parser_shift q s2)
          = some (t, { ts_lr_parser_shift q s2 with lookahead := some t, lexer := l }))) := by
  obtain ⟨node, stack, hr, hp1⟩ := reduce_spec p p1 symbol child_count flags h
  subst hp1
  refine ⟨rfl, ⟨node, stack, hr, rfl, rfl⟩, rfl, rfl, (ts_stack_top_push _ _ _).1,
    (ts_stack_top_push _ _ _).2, rfl, rfl, rfl, ?_⟩
  intro g q s2 hq
  have htop : ts_stack_top_state (ts_lr_parser_shift q s2).stack = s2 :=
    (ts_stack_top_push _ _ _).1
  have hla : (ts_lr_parser_shift q s2).lookahead = none := hq
  refine ⟨hla, rfl, ?_, ?_⟩
  · intro hlex
    have hlex2 : g.ts_lex (ts_lr_parser_shift q s2).lexer (g.ts_lex_states s2) = none := hlex
    simp [ts_parse_fill_lookahead, hla, htop, hlex2]
  · intro t l hlex
    have hlex2 : g.ts_lex (ts_lr_parser_shift q s2).lexer (g.ts_lex_states s2)
        = some (t, l) := hlex
    simp [ts_parse_fill_lookahead, hla, htop, hlex2]

/-- C15 in the parse of `1+2+3`: with `NUM` on the stack and `PLUS` lexed, the
reduction of `expr` keeps `PLUS` in `next_lookahead`, and the shift of `expr`
to state 2 restores it. -/
theorem C15_reduce_consumes_no_input_witness :
    ∃ p1, ts_lr_parser_reduce (driver_state_lexed (expr_grammar chunk_source 1) text_1p2p3 1)
        sym_expr 1 [0] = some p1 ∧
      (driver_state_lexed (expr_grammar chunk_source 1) text_1p2p3 1).lookahead
        = some (ts_tree.leaf sym_PLUS 1 0) ∧
      p1.lookahead = some (ts_tree.node sym_expr 1 0 [ts_tree.leaf sym_NUM 1 0]) ∧
      p1.next_lookahead = some (ts_tree.leaf sym_PLUS 1 0) ∧
      (ts_lr_parser_shift p1 2).lookahead = some (ts_tree.leaf sym_PLUS 1 0) ∧
      (ts_lr_parser_shift p1 2).lexer
        = (driver_state_lexed (expr_grammar chunk_source 1) text_1p2p3 1).lexer := by
  have h : ∃ p1, ts_lr_parser_reduce
      (driver_state_lexed (expr_grammar chunk_source 1) text_1p2p3 1) sym_expr 1 [0] = some p1 ∧
      p1.lookahead = some (ts_tree.node sym_expr 1 0 [ts_tree.leaf sym_NUM 1 0]) :=
    ⟨_, rfl, rfl⟩
  obtain ⟨p1, h1, h2⟩ := h
  have hc := C15_reduce_consumes_no_input
    (driver_state_lexed (expr_grammar chunk_source 1) text_1p2p3 1) p1 sym_expr 1 [0] 2 h1
  have hla : (driver_state_lexed (expr_grammar chunk_source 1) text_1p2p3 1).lookahead
      = some (ts_tree.leaf sym_PLUS 1 0) := rfl
  refine ⟨p1, h1, hla, h2, ?_, ?_, hc.2.2.2.2.2.2.2.2.1⟩
  · rw [hc.2.2.1, hla]
  · rw [hc.2.2.2.2.2.2.1, hla]

/-- C16, as stated, fails: with a table that has a Reduce action on a
nonterminal, the driver lexes the token `NUM`, reduces, and reduces again at
once; `next_lookahead` then holds the first reduced node, the lookahead the
second, and the token is in neither slot. -/
theorem C16_second_reduce_drops_token :
    (driver_state_lexed (double_reduce_grammar 1) text_1 0).lookahead
      = some (ts_tree.leaf sym_NUM 1 0) ∧
    ∃ p1 p2,
      ts_lr_parser_reduce (driver_state_lexed (double_reduce_grammar 1) text_1 0) sym_expr 0 []
        = some p1 ∧
      ts_lr_parser_reduce p1 3 0 [] = some p2 ∧
      ts_parse_iterate (double_reduce_grammar 1) 2 2 (driver_state (double_reduce_grammar 1) text_1 0)
        = some p2 ∧
      p2.lookahead = some (ts_tree.node 3 0 0 []) ∧
      p2.next_lookahead = some (ts_tree.node sym_expr 0 0 []) ∧
      p2.lookahead ≠ some (ts_tree.leaf sym_NUM 1 0) ∧
      p2.next_lookahead ≠ some (ts_tree.leaf sym_NUM 1 0) := by
  refine ⟨rfl, ?_⟩
  have h : ∃ p1 p2,
      ts_lr_parser_reduce (driver_state_lexed (double_reduce_grammar 1) text_1 0) sym_expr 0 []
        = some p1 ∧
      ts_lr_parser_reduce p1 3 0 [] = some p2 ∧
      ts_parse_iterate (double_reduce_grammar 1) 2 2 (driver_state (double_reduce_grammar 1) text_1 0)
        = some p2 ∧
      p2.lookahead = some (ts_tree.node 3 0 0 []) ∧
      p2.next_lookahead = some (ts_tree.node sym_expr 0 0 []) := ⟨_, _, rfl, rfl, rfl, rfl, rfl⟩
  obtain ⟨p1, p2, h1, h2, h3, h4, h5⟩ := h
  refine ⟨p1, p2, h1, h2, h3, h4, h5, ?_, ?_⟩
  · rw [h4]
    intro hh
    simp at hh
  · rw [h5]
    intro hh
    simp at hh

/-- C16, amended: for every parser state whose lookahead holds a token `t`,
after `ts_lr_parser_reduce` the token is held in `next_lookahead`, and the
`ts_lr_parser_shift` that follows pushes the reduced node and makes `t` the
lookahead again, so that the shifts see the nodes in their original order. The
buffer has one slot: a second `ts_lr_parser_reduce` at once after the first
puts the first reduced node in `next_lookahead`. -/
theorem C16_token_kept_across_reduce_and_shift {σ : Type} (p p1 : ts_lr_parser_t σ)
    (t : ts_tree) (symbol : ts_symbol) (child_count : Int) (flags : List Int) (s : state_id)
    (hla : p.lookahead = some t)
    (h : ts_lr_parser_reduce p symbol child_count flags = some p1) :
    p1.next_lookahead = some t ∧
    (ts_lr_parser_shift p1 s).lookahead = some t ∧
    (ts_lr_parser_shift p1 s).next_lookahead = none ∧
    ts_stack_top_node (ts_lr_parser_shift p1 s).stack = p1.lookahead ∧
    (∃ node, p1.lookahead = some node) ∧
    (∀ symbol2 child_count2 flags2 p2,
      ts_lr_parser_reduce p1 symbol2 child_count2 flags2 = some p2 →
      p2.next_lookahead = p1.lookahead ∧ ∃ node2, p2.lookahead = some node2) := by
  obtain ⟨node, stack, _, hp1⟩ := reduce_spec p p1 symbol child_count flags h
  subst hp1
  refine ⟨hla, hla, rfl, (ts_stack_top_push _ _ _).2, ⟨node, rfl⟩, ?_⟩
  intro symbol2 child_count2 flags2 p2 h2
  obtain ⟨node2, stack2, _, hp2⟩ := reduce_spec _ p2 symbol2 child_count2 flags2 h2
  subst hp2
  exact ⟨rfl, node2, rfl⟩

/-- C16, amended, in the parse of `1+2+3`: the token `PLUS` is in
`next_lookahead` after the first reduction and is the lookahead again after the
shift of `expr`. -/
theorem C16_token_kept_across_reduce_and_shift_witness :
    (driver_state_lexed (expr_grammar chunk_source 1) text_1p2p3 1).lookahead
      = some (ts_tree.leaf sym_PLUS 1 0) ∧
    ∃ p1, ts_lr_parser_reduce (driver_state_lexed (expr_grammar chunk_source 1) text_1p2p3 1)
        sym_expr 1 [0] = some p1 ∧
      p1.next_lookahead = some (ts_tree.leaf sym_PLUS 1 0) ∧
      (ts_lr_parser_shift p1 2).lookahead = some (ts_tree.leaf sym_PLUS 1 0) := by
  have h : ∃ p1, ts_lr_parser_reduce
      (driver_state_lexed (expr_grammar chunk_source 1) text_1p2p3 1) sym_expr 1 [0]
      = some p1 := ⟨_, rfl⟩
  obtain ⟨p1, h1⟩ := h
  have hc := C16_token_kept_across_reduce_and_shift
    (driver_state_lexed (expr_grammar chunk_source 1) text_1p2p3 1) p1
    (ts_tree.leaf sym_PLUS 1 0) sym_expr 1 [0] 2 rfl h1
  exact ⟨rfl, p1, h1, hc.1, hc.2.1⟩

/-! ## Stack breakdown -/

theorem breakdown_loop_succ {σ : Type} (g : Grammar σ) (position fuel : Nat) (node : ts_tree)
    (v : breakdown_vars) :
    ts_lr_parser_breakdown_loop g position (fuel + 1) node v
      = if v.right_position > position ∨ (ts_tree_children node).isSome then
          match (ts_lr_parser_breakdown_children g position ((ts_tree_children node).getD [])
            { v with stack := { v.stack with size := size_dec v.stack.size },
                     child := none }).child with
          | none => none
          | some child =>
            ts_lr_parser_breakdown_loop g position fuel child
              (ts_lr_parser_breakdown_children g position ((ts_tree_children node).getD [])
                { v with stack := { v.stack with size := size_dec v.stack.size },
                         child := none })
        else some v := rfl

theorem breakdown_loop_step {σ : Type} (g : Grammar σ) (position fuel : Nat) (node : ts_tree)
    (v : breakdown_vars) (child : ts_tree)
    (hcond : v.right_position > position ∨ (ts_tree_children node).isSome = true)
    (hchild : (ts_lr_parser_breakdown_children g position ((ts_tree_children node).getD [])
      { v with stack := { v.stack with size := size_dec v.stack.size },
               child := none }).child = some child) :
    ts_lr_parser_breakdown_loop g position (fuel + 1) node v
      = ts_lr_parser_breakdown_loop g position fuel child
          (ts_lr_parser_breakdown_children g position ((ts_tree_children node).getD [])
            { v with stack := { v.stack with size := size_dec v.stack.size },
                     child := none }) := by
  rw [breakdown_loop_succ, if_pos hcond, hchild]

/-- A node without children on top whose end is past the edit: the loop of
`ts_lr_parser_breakdown_stack` does not return, whatever the fuel. -/
theorem breakdown_loop_stuck_at_leaf {σ : Type} (g : Grammar σ) (position fuel : Nat)
    (node : ts_tree) (v : breakdown_vars)
    (hleaf : ts_tree_children node = none) (hright : position < v.right_position) :
    ts_lr_parser_breakdown_loop g position fuel node v = none := by
  cases fuel with
  | zero => rfl
  | succ fuel =>
    rw [breakdown_loop_succ, if_pos (Or.inl hright), hleaf]
    rfl

theorem spans_positive_span (t : ts_tree) (h : t.spans_positive = true) :
    1 ≤ t.offset + t.size := by
  cases t with
  | leaf s n o => simpa [ts_tree.spans_positive, ts_tree.offset, ts_tree.size] using h
  | node s n o cs =>
    simp only [ts_tree.spans_positive, Bool.and_eq_true, decide_eq_true_eq] at h
    exact h.1
  | error c k e n o => simpa [ts_tree.spans_positive, ts_tree.offset, ts_tree.size] using h

theorem spans_positive_children (t : ts_tree) (cs : List ts_tree)
    (h : t.spans_positive = true) (hc : ts_tree_children t = some cs) :
    ts_tree.spans_positive_list cs = true := by
  cases t with
  | leaf s n o => simp [ts_tree_children] at hc
  | node s n o cs2 =>
    simp only [ts_tree_children, Option.some.injEq] at hc
    subst hc
    simp only [ts_tree.spans_positive, Bool.and_eq_true, decide_eq_true_eq] at h
    exact h.2
  | error c k e n o => simp [ts_tree_children] at hc

/-- The `for` loop of breakdown over children that all have non-empty spans
leaves in `child` a node with non-empty spans, and `right_position` is at
least 1. -/
theorem breakdown_children_positive {σ : Type} (g : Grammar σ) (position : Nat)
    (cs : List ts_tree) :
    ∀ (c : ts_tree) (v : breakdown_vars),
      ts_tree.spans_positive_list (c :: cs) = true →
      ∃ top, (ts_lr_parser_breakdown_children g position (c :: cs) v).child = some top ∧
        top.spans_positive = true ∧
        1 ≤ (ts_lr_parser_breakdown_children g position (c :: cs) v).right_position := by
  induction cs with
  | nil =>
    intro c v h
    simp only [ts_tree.spans_positive_list, Bool.and_true] at h
    have hs := spans_positive_span c h
    by_cases hb : v.left_position + c.offset + c.size ≥ position
    · simp only [ts_lr_parser_breakdown_children, hb, if_true]
      exact ⟨c, rfl, h, by show 1 ≤ v.left_position + c.offset + c.size; omega⟩
    · simp only [ts_lr_parser_breakdown_children, hb, if_false]
      exact ⟨c, rfl, h, by show 1 ≤ v.left_position + c.offset + c.size; omega⟩
  | cons c2 cs ih =>
    intro c v h
    have h1 : c.spans_positive = true ∧ ts_tree.spans_positive_list (c2 :: cs) = true := by
      have h2 := h
      unfold ts_tree.spans_positive_list at h2
      simpa using h2
    have hs := spans_positive_span c h1.1
    by_cases hb : v.left_position + c.offset + c.size ≥ position
    · have heq : ts_lr_parser_breakdown_children g position (c :: c2 :: cs) v
          = { stack := ts_stack_push v.stack
                (g.ts_parse_actions (ts_stack_top_state v.stack) c.symbol).data_to_state (some c)
              left_position := v.left_position
              right_position := v.left_position + c.offset + c.size
              child := some c
              pushed := (c, v.left_position + c.offset + c.size) :: v.pushed } := by
        simp only [ts_lr_parser_breakdown_children, hb, if_true]
      rw [heq]
      exact ⟨c, rfl, h1.1, by show 1 ≤ v.left_position + c.offset + c.size; omega⟩
    · have heq : ts_lr_parser_breakdown_children g position (c :: c2 :: cs) v
          = ts_lr_parser_breakdown_children g position (c2 :: cs)
            { stack := ts_stack_push v.stack
                (g.ts_parse_actions (ts_stack_top_state v.stack) c.symbol).data_to_state (some c)
              left_position := v.left_position + c.offset + c.size
              right_position := v.left_position + c.offset + c.size
              child := some c
              pushed := (c, v.left_position + c.offset + c.size) :: v.pushed } := by
        conv_lhs => unfold ts_lr_parser_breakdown_children
        simp only [hb, if_false]
      rw [heq]
      exact ih c2 _ h1.2

/-- With an edit at position 0, the loop of breakdown does not return from a
tree all of whose nodes have non-empty spans: it descends to the first leaf,
whose end is past the edit, and goes on without children. -/
theorem breakdown_loop_diverges_at_zero {σ : Type} (g : Grammar σ) (fuel : Nat) :
    ∀ (node : ts_tree) (v : breakdown_vars),
      node.spans_positive = true → 1 ≤ v.right_position →
      ts_lr_parser_breakdown_loop g 0 fuel node v = none := by
  induction fuel with
  | zero =>
    intro node v _ _
    rfl
  | succ fuel ih =>
    intro node v hnode hright
    cases hch : ts_tree_children node with
    | none => exact breakdown_loop_stuck_at_leaf g 0 (fuel + 1) node v hch (by omega)
    | some cs =>
      cases cs with
      | nil =>
        rw [breakdown_loop_succ, if_pos (Or.inl (by omega)), hch]
        rfl
      | cons c cs =>
        have hlist := spans_positive_children node (c :: cs) hnode hch
        have hcond : v.right_position > 0 ∨ (ts_tree_children node).isSome = true :=
          Or.inl (by omega)
        have hres := breakdown_children_positive g 0 cs c
          { v with stack := { v.stack with size := size_dec v.stack.size }, child := none } hlist
        obtain ⟨top, htop, hpos, hr⟩ := hres
        have hchild : (ts_lr_parser_breakdown_children g 0 ((ts_tree_children node).getD [])
            { v with stack := { v.stack with size := size_dec v.stack.size },
                     child := none }).child = some top := by
          rw [hch]
          exact htop
        rw [breakdown_loop_step g 0 fuel node v top hcond hchild]
        apply ih top _ hpos
        rw [hch]
        exact hr

/-- C17: breakdown does not return for an edit before the end of the first
leaf. For every stack whose top entry holds a tree all of whose nodes have a
non-empty span, an edit at position 0 makes the loop descend to the first
leaf, whose `right_position` is past the edit; the loop goes on with a node
without children (`size--`, an empty `for` loop, the read of the
uninitialised `child`) and `ts_lr_parser_breakdown_stack` returns for no fuel.
So it is after the parse of `1+2+3`, which leaves the well-formed tree of `expr`
on the stack: with an edit at position 0 neither breakdown nor `ts_parse`
returns. In general the loop does not return from a node without children whose
end is past the edit. -/
theorem C17_breakdown_does_not_return_before_first_leaf :
    (∀ (g : Grammar chunk_source) (fuel : Nat) (stack : ts_stack) (node : ts_tree),
      stack.size ≠ 0 → ts_stack_top_node stack = some node → node.spans_positive = true →
      ts_lr_parser_breakdown_stack g fuel stack (some { position := 0 }) = none) ∧
    (parser_after (expr_grammar chunk_source 1) text_1p2p3).stack.toList
      = [{ node := some expr_tree_1p2p3, state := 2 }] ∧
    expr_tree_1p2p3.well_formed = true ∧
    (∀ fuel, ts_lr_parser_breakdown_stack (expr_grammar chunk_source 1) fuel
      (parser_after (expr_grammar chunk_source 1) text_1p2p3).stack
      (some { position := 0 }) = none) ∧
    (∀ fuel, ts_parse (expr_grammar chunk_source 1) fuel
      (parser_after (expr_grammar chunk_source 1) text_1p2p3) (string_input text_1p2p3)
      (some { position := 0 }) = none) ∧
    (∀ (g : Grammar chunk_source) (position fuel : Nat) (node : ts_tree) (v : breakdown_vars),
      ts_tree_children node = none → position < v.right_position →
      ts_lr_parser_breakdown_loop g position fuel node v = none) := by
  have hgen : ∀ (g : Grammar chunk_source) (fuel : Nat) (stack : ts_stack) (node : ts_tree),
      stack.size ≠ 0 → ts_stack_top_node stack = some node → node.spans_positive = true →
      ts_lr_parser_breakdown_stack g fuel stack (some { position := 0 }) = none := by
    intro g fuel stack node hsize htop hpos
    unfold ts_lr_parser_breakdown_stack ts_lr_parser_breakdown_vars
    rw [if_neg hsize, htop]
    show Option.map _ (ts_lr_parser_breakdown_loop g 0 fuel node _) = none
    rw [breakdown_loop_diverges_at_zero g fuel node _ hpos (spans_positive_span node hpos)]
    rfl
  have hb : ∀ fuel, ts_lr_parser_breakdown_stack (expr_grammar chunk_source 1) fuel
      (parser_after (expr_grammar chunk_source 1) text_1p2p3).stack
      (some { position := 0 }) = none := by
    intro fuel
    exact hgen _ fuel _ expr_tree_1p2p3 (by decide) rfl rfl
  refine ⟨hgen, rfl, rfl, hb, ?_, fun g position fuel node v h1 h2 =>
    breakdown_loop_stuck_at_leaf g position fuel node v h1 h2⟩
  intro fuel
  simp [ts_parse, ts_lr_parser_initialize, hb fuel]

/-- C18: the position returned is past the end of the stack. The text `11`,
blank is parsed by the parser of `expr := NUM expr | NUM`, which leaves the
well-formed tree `expr(NUM, expr(NUM))` of span 2; with an edit at position 3
the `for` loop passes the last child `expr(NUM)` without a break, so that
`left_position` is its end when the loop descends into it, and breakdown
returns 3 while the spans of the two entries left on the stack add up to 2. -/
theorem C18_breakdown_returns_past_the_stack :
    (ts_parse (list_grammar 2) 20 (ts_lr_parser_make (string_input []))
        (string_input text_11_blank) none).map Prod.fst
      = some (some (ts_tree.node sym_expr 2 0
          [ts_tree.leaf sym_NUM 1 0, ts_tree.node sym_expr 1 0 [ts_tree.leaf sym_NUM 1 0]])) ∧
    (ts_tree.node sym_expr 2 0
      [ts_tree.leaf sym_NUM 1 0,
       ts_tree.node sym_expr 1 0 [ts_tree.leaf sym_NUM 1 0]]).well_formed = true ∧
    (parser_after (list_grammar 2) text_11_blank).stack.toList
      = [{ node := some (ts_tree.node sym_expr 2 0
            [ts_tree.leaf sym_NUM 1 0, ts_tree.node sym_expr 1 0 [ts_tree.leaf sym_NUM 1 0]]),
           state := 2 }] ∧
    ∃ stack, ts_lr_parser_breakdown_stack (list_grammar 2) 3
        (parser_after (list_grammar 2) text_11_blank).stack (some { position := 3 })
        = some (stack, 3) ∧
      stack.toList = [{ node := some (ts_tree.leaf sym_NUM 1 0), state := 1 },
                      { node := some (ts_tree.leaf sym_NUM 1 0), state := 1 }] ∧
      stack_span_sum stack stack.size = 2 :=
  ⟨rfl, rfl, rfl, _, rfl, rfl, rfl⟩

theorem stack_span_sum_congr (s t : ts_stack) (n : Nat)
    (h : ∀ k, k < n → s.entries k = t.entries k) :
    stack_span_sum s n = stack_span_sum t n := by
  induction n with
  | zero => rfl
  | succ n ih =>
    simp only [stack_span_sum]
    rw [ih (fun k hk => h k (Nat.lt_succ_of_lt hk)), h n (Nat.lt_succ_self n)]

theorem stack_span_sum_mono (s : ts_stack) (n m : Nat) (h : n ≤ m) :
    stack_span_sum s n ≤ stack_span_sum s m := by
  induction m with
  | zero =>
    have : n = 0 := by omega
    rw [this]
  | succ m ih =>
    by_cases hn : n = m + 1
    · rw [hn]
    · have := ih (by omega)
      simp only [stack_span_sum]
      omega

theorem stack_span_sum_push (s : ts_stack) (state : state_id) (c : ts_tree) :
    stack_span_sum (ts_stack_push s state (some c)) s.size = stack_span_sum s s.size ∧
    stack_span_sum (ts_stack_push s state (some c)) (s.size + 1)
      = stack_span_sum s s.size + (c.offset + c.size) := by
  have h1 : stack_span_sum (ts_stack_push s state (some c)) s.size = stack_span_sum s s.size := by
    apply stack_span_sum_congr
    intro k hk
    simp [ts_stack_push, Nat.ne_of_lt hk]
  refine ⟨h1, ?_⟩
  simp only [stack_span_sum]
  rw [h1]
  simp [ts_stack_push, entry_span]

theorem breakdown_push_ok {σ : Type} (g : Grammar σ) (c : ts_tree) (v : breakdown_vars)
    (left : Nat) (hv : stack_span_sum v.stack v.stack.size ≤ v.left_position)
    (hleft : v.left_position ≤ left) :
    breakdown_top_ok
      { stack := ts_stack_push v.stack
          (g.ts_parse_actions (ts_stack_top_state v.stack) c.symbol).data_to_state (some c)
        left_position := left
        right_position := v.left_position + c.offset + c.size
        child := some c
        pushed := (c, v.left_position + c.offset + c.size) :: v.pushed } := by
  obtain ⟨hp1, hp2⟩ := stack_span_sum_push v.stack
    (g.ts_parse_actions (ts_stack_top_state v.stack) c.symbol).data_to_state c
  refine ⟨c, rfl, (ts_stack_top_push _ _ _).2, ?_, ?_, ?_⟩
  · show 1 ≤ v.stack.size + 1
    omega
  · show stack_span_sum (ts_stack_push v.stack
        (g.ts_parse_actions (ts_stack_top_state v.stack) c.symbol).data_to_state (some c))
        (v.stack.size + 1 - 1) ≤ left
    rw [Nat.add_sub_cancel, hp1]
    omega
  · show stack_span_sum (ts_stack_push v.stack
        (g.ts_parse_actions (ts_stack_top_state v.stack) c.symbol).data_to_state (some c))
        (v.stack.size + 1) ≤ v.left_position + c.offset + c.size
    rw [hp2]
    omega

/-- The `for` loop of breakdown over a non-empty list of children, from a stack
whose spans add up to at most `left_position`: it leaves a child on top, the
spans below it add up to at most `left_position` and the spans of the whole
stack to at most `right_position`. -/
theorem breakdown_children_spans {σ : Type} (g : Grammar σ) (position : Nat)
    (cs : List ts_tree) :
    ∀ (c : ts_tree) (v : breakdown_vars),
      stack_span_sum v.stack v.stack.size ≤ v.left_position →
      breakdown_top_ok (ts_lr_parser_breakdown_children g position (c :: cs) v) := by
  induction cs with
  | nil =>
    intro c v hv
    by_cases hb : v.left_position + c.offset + c.size ≥ position
    · simp only [ts_lr_parser_breakdown_children, hb, if_true]
      exact breakdown_push_ok g c v v.left_position hv (Nat.le_refl _)
    · simp only [ts_lr_parser_breakdown_children, hb, if_false]
      exact breakdown_push_ok g c v _ hv (by omega)
  | cons c2 cs ih =>
    intro c v hv
    by_cases hb : v.left_position + c.offset + c.size ≥ position
    · have heq : ts_lr_parser_breakdown_children g position (c :: c2 :: cs) v
          = { stack := ts_stack_push v.stack
                (g.ts_parse_actions (ts_stack_top_state v.stack) c.symbol).data_to_state (some c)
              left_position := v.left_position
              right_position := v.left_position + c.offset + c.size
              child := some c
              pushed := (c, v.left_position + c.offset + c.size) :: v.pushed } := by
        simp only [ts_lr_parser_breakdown_children, hb, if_true]
      rw [heq]
      exact breakdown_push_ok g c v v.left_position hv (Nat.le_refl _)
    · have heq : ts_lr_parser_breakdown_children g position (c :: c2 :: cs) v
          = ts_lr_parser_breakdown_children g position (c2 :: cs)
            { stack := ts_stack_push v.stack
                (g.ts_parse_actions (ts_stack_top_state v.stack) c.symbol).data_to_state (some c)
              left_position := v.left_position + c.offset + c.size
              right_position := v.left_position + c.offset + c.size
              child := some c
              pushed := (c, v.left_position + c.offset + c.size) :: v.pushed } := by
        conv_lhs => unfold ts_lr_parser_breakdown_children
        simp only [hb, if_false]
      rw [heq]
      apply ih
      obtain ⟨_, hp2⟩ := stack_span_sum_push v.stack
        (g.ts_parse_actions (ts_stack_top_state v.stack) c.symbol).data_to_state c
      show stack_span_sum (ts_stack_push v.stack
          (g.ts_parse_actions (ts_stack_top_state v.stack) c.symbol).data_to_state (some c))
          (v.stack.size + 1) ≤ v.left_position + c.offset + c.size
      rw [hp2]
      omega

theorem size_dec_pos (n : Nat) (h : 1 ≤ n) : size_dec n = n - 1 := by
  unfold size_dec
  rw [if_neg (by omega)]

/-- When the loop of breakdown returns, the position it returns is at or before
the edit, the spans of the entries left on the stack add up to at most that
position, and the node on top has no children. -/
theorem breakdown_loop_returns {σ : Type} (g : Grammar σ) (position fuel : Nat) :
    ∀ (node : ts_tree) (v result : breakdown_vars),
      1 ≤ v.stack.size → ts_stack_top_node v.stack = some node →
      stack_span_sum v.stack (v.stack.size - 1) ≤ v.left_position →
      stack_span_sum v.stack v.stack.size ≤ v.right_position →
      ts_lr_parser_breakdown_loop g position fuel node v = some result →
      result.right_position ≤ position ∧
      stack_span_sum result.stack result.stack.size ≤ result.right_position ∧
      ∃ top, ts_stack_top_node result.stack = some top ∧ ts_tree_children top = none := by
  induction fuel with
  | zero =>
    intro node v result _ _ _ _ h
    simp [ts_lr_parser_breakdown_loop] at h
  | succ fuel ih =>
    intro node v result hsize htop hleft hright h
    by_cases hcond : v.right_position > position ∨ (ts_tree_children node).isSome = true
    · have hv0 : stack_span_sum
          ({ v with stack := { v.stack with size := size_dec v.stack.size },
                    child := none } : breakdown_vars).stack
          ({ v with stack := { v.stack with size := size_dec v.stack.size },
                    child := none } : breakdown_vars).stack.size
          ≤ ({ v with stack := { v.stack with size := size_dec v.stack.size },
                      child := none } : breakdown_vars).left_position := by
        show stack_span_sum { v.stack with size := size_dec v.stack.size }
          (size_dec v.stack.size) ≤ v.left_position
        rw [size_dec_pos _ hsize,
          stack_span_sum_congr { v.stack with size := v.stack.size - 1 } v.stack
            (v.stack.size - 1) (fun k _ => rfl)]
        exact hleft
      cases hch : ts_tree_children node with
      | none =>
        rw [breakdown_loop_succ, if_pos hcond, hch] at h
        simp [ts_lr_parser_breakdown_children] at h
      | some cs =>
        cases cs with
        | nil =>
          rw [breakdown_loop_succ, if_pos hcond, hch] at h
          simp [ts_lr_parser_breakdown_children] at h
        | cons c cs =>
          have hok := breakdown_children_spans g position cs c _ hv0
          obtain ⟨top, hchild, htopn, hsz, hl, hr⟩ := hok
          have hchild2 : (ts_lr_parser_breakdown_children g position
              ((ts_tree_children node).getD [])
              { v with stack := { v.stack with size := size_dec v.stack.size },
                       child := none }).child = some top := by
            rw [hch]
            exact hchild
          rw [breakdown_loop_step g position fuel node v top hcond hchild2, hch] at h
          exact ih top _ result hsz htopn hl hr h
    · rw [breakdown_loop_succ, if_neg hcond] at h
      have hres : v = result := Option.some.inj h
      subst hres
      have h1 : ¬ v.right_position > position := fun hh => hcond (Or.inl hh)
      have h2 : ts_tree_children node = none := by
        cases hc : ts_tree_children node with
        | none => rfl
        | some cs => exact absurd (Or.inr (by rw [hc]; rfl)) hcond
      exact ⟨by omega, hright, node, htop, h2⟩

/-- C19, as stated, fails: in the breakdown of the stack that the parse of
`1+2+3` leaves, with an edit at position 1, the first child pushed is
`expr(expr(NUM) PLUS NUM)`, whose end position 3 is past the edit; the next
iteration pops it again. -/
theorem C19_breakdown_pushes_past_the_edit :
    ∃ v, ts_lr_parser_breakdown_vars (expr_grammar chunk_source 1) 4
        (parser_after (expr_grammar chunk_source 1) text_1p2p3).stack (some { position := 1 })
        = some v ∧
      v.pushed.reverse.head? = some
        (ts_tree.node sym_expr 3 0
          [ts_tree.node sym_expr 1 0 [ts_tree.leaf sym_NUM 1 0],
           ts_tree.leaf sym_PLUS 1 0, ts_tree.leaf sym_NUM 1 0], 3) ∧
      1 < 3 ∧
      v.stack.toList = [{ node := some (ts_tree.leaf sym_NUM 1 0), state := 1 }] :=
  ⟨_, rfl, rfl, by decide, rfl⟩

/-- C19, amended: every node that remains on the stack when breakdown returns
lies at or before the edit. For a stack that holds the previous tree in its
single entry: the position returned is at most the edit position, the spans
`offset + size` of the entries left on the stack add up to at most the position
returned, so that the absolute end of every entry left is at most the edit
position, and the node on top has no children. (A child whose end is past the
edit is pushed and popped again by the next iteration.) -/
theorem C19_stack_left_lies_before_edit {σ : Type} (g : Grammar σ) (fuel : Nat)
    (stack result : ts_stack) (edit : ts_input_edit) (position : Nat)
    (hsize : stack.size = 1)
    (h : ts_lr_parser_breakdown_stack g fuel stack (some edit) = some (result, position)) :
    position ≤ edit.position ∧
    stack_span_sum result result.size ≤ position ∧
    (∀ k, k < result.size → stack_span_sum result (k + 1) ≤ edit.position) ∧
    ∃ top, ts_stack_top_node result = some top ∧ ts_tree_children top = none := by
  unfold ts_lr_parser_breakdown_stack at h
  cases hv : ts_lr_parser_breakdown_vars g fuel stack (some edit) with
  | none => simp [hv] at h
  | some v =>
    simp only [hv, Option.map_some', Option.some.injEq, Prod.mk.injEq] at h
    obtain ⟨h1, h2⟩ := h
    subst h1 h2
    unfold ts_lr_parser_breakdown_vars at hv
    rw [if_neg (by omega)] at hv
    cases htop : ts_stack_top_node stack with
    | none => simp [htop] at hv
    | some node =>
      simp only [htop] at hv
      have hentry : (stack.entries 0).node = some node := by
        simpa [ts_stack_top_node, hsize] using htop
      have hsum : stack_span_sum stack stack.size ≤ node.offset + node.size := by
        rw [hsize]
        simp [stack_span_sum, entry_span, hentry]
      have hres := breakdown_loop_returns g edit.position fuel node _ v
        (by show 1 ≤ stack.size; omega) htop
        (by show stack_span_sum stack (stack.size - 1) ≤ 0; rw [hsize]; exact Nat.le_refl 0)
        hsum hv
      obtain ⟨hr1, hr2, hr3⟩ := hres
      refine ⟨hr1, hr2, ?_, hr3⟩
      intro k hk
      have := stack_span_sum_mono v.stack (k + 1) v.stack.size (by omega)
      omega

/-- C19, amended, after the parse of `1+2+3` with an edit at position 1: breakdown
returns 1 and leaves the leaf `NUM` of the bytes `[0, 1)` on the stack. -/
theorem C19_stack_left_lies_before_edit_witness :
    (parser_after (expr_grammar chunk_source 1) text_1p2p3).stack.size = 1 ∧
    ∃ result, ts_lr_parser_breakdown_stack (expr_grammar chunk_source 1) 4
        (parser_after (expr_grammar chunk_source 1) text_1p2p3).stack (some { position := 1 })
        = some (result, 1) ∧
      result.toList = [{ node := some (ts_tree.leaf sym_NUM 1 0), state := 1 }] ∧
      stack_span_sum result result.size ≤ 1 := by
  have h : ∃ result, ts_lr_parser_breakdown_stack (expr_grammar chunk_source 1) 4
      (parser_after (expr_grammar chunk_source 1) text_1p2p3).stack (some { position := 1 })
      = some (result, 1) ∧
      result.toList = [{ node := some (ts_tree.leaf sym_NUM 1 0), state := 1 }] :=
    ⟨_, rfl, rfl⟩
  obtain ⟨result, h1, h2⟩ := h
  exact ⟨rfl, result, h1, h2,
    (C19_stack_left_lies_before_edit (expr_grammar chunk_source 1) 4 _ result
      { position := 1 } 1 rfl h1).2.1⟩

/-! ## Consistency of the stack with the table -/

theorem stack_consistent_at_congr {σ : Type} (g : Grammar σ) (s t : ts_stack) (k : Nat)
    (h1 : s.entries k = t.entries k) (h2 : s.entries (k - 1) = t.entries (k - 1)) :
    stack_consistent_at g s k = stack_consistent_at g t k := by
  unfold stack_consistent_at state_beneath
  rw [h1, h2]

theorem stack_consistent_push {σ : Type} (g : Grammar σ) (stack : ts_stack) (c : ts_tree)
    (s : state_id) (h : stack_consistent g stack)
    (hact : g.ts_parse_actions (ts_stack_top_state stack) c.symbol = ts_parse_action.shift s) :
    stack_consistent g (ts_stack_push stack s (some c)) := by
  intro k hk
  have hk2 : k < stack.size + 1 := hk
  by_cases hlt : k < stack.size
  · rw [stack_consistent_at_congr g (ts_stack_push stack s (some c)) stack k
      (by simp [ts_stack_push, Nat.ne_of_lt hlt])
      (by simp [ts_stack_push, Nat.ne_of_lt (Nat.lt_of_le_of_lt (Nat.sub_le k 1) hlt)])]
    exact h k hlt
  · have hk3 : k = stack.size := by omega
    subst hk3
    have hb : state_beneath (ts_stack_push stack s (some c)) stack.size
        = ts_stack_top_state stack := by
      unfold state_beneath ts_stack_top_state
      by_cases h0 : stack.size = 0
      · simp [h0]
      · have hne : stack.size - 1 ≠ stack.size := by omega
        simp [h0, ts_stack_push, hne]
    unfold stack_consistent_at
    rw [hb]
    simp [ts_stack_push, hact]

theorem stack_consistent_shrink {σ : Type} (g : Grammar σ) (stack : ts_stack) (n : Nat)
    (h : stack_consistent g stack) (hn : n ≤ stack.size) :
    stack_consistent g (ts_stack_shrink stack n) := by
  intro k hk
  have hk2 : k < n := hk
  rw [stack_consistent_at_congr g (ts_stack_shrink stack n) stack k rfl rfl]
  exact h k (by omega)

theorem fill_lookahead_spec {σ : Type} (g : Grammar σ) (p p1 : ts_lr_parser_t σ) (la : ts_tree)
    (h : ts_parse_fill_lookahead g p = some (la, p1)) :
    p1.stack = p.stack ∧ p1.lookahead = some la := by
  unfold ts_parse_fill_lookahead at h
  cases hl : p.lookahead with
  | some token =>
    simp [hl] at h
    obtain ⟨h1, h2⟩ := h
    subst h1 h2
    exact ⟨rfl, hl⟩
  | none =>
    cases hx : g.ts_lex p.lexer (g.ts_lex_states (ts_stack_top_state p.stack)) with
    | none => simp [hl, hx] at h
    | some tl =>
      obtain ⟨token, lexer⟩ := tl
      simp [hl, hx] at h
      obtain ⟨h1, h2⟩ := h
      subst h1 h2
      exact ⟨rfl, rfl⟩

/-- C20: the stack is consistent with the table when, for every entry, the
action of the state beneath it on the symbol of its node is Shift to its state.
The empty stack is consistent; the shift step of the driver, the push of the
Error node by a successful error recovery, and a push of breakdown made from a
Shift action keep the stack consistent. A push of breakdown need not: it reads
`data.to_state` whatever the action. After the parse of `11+` by the parser of
`expr := pair PLUS`, `pair := NUM NUM` with `pair` collapsed, the stack holds
`expr(NUM, NUM, PLUS)`; breakdown with an edit at position 3 pushes
`PLUS` over state 2, whose action on `PLUS` is the Reduce of `pair`, with the
state 3 read from that action, and the stack it leaves is not consistent. -/
theorem C20_breakdown_push_breaks_consistency :
    (∀ (σ : Type) (g : Grammar σ) (s : ts_stack), s.size = 0 → stack_consistent g s) ∧
    (∀ (σ : Type) (g : Grammar σ) (fuel : Nat) (p p1 : ts_lr_parser_t σ) (la : ts_tree)
        (s : state_id),
      stack_consistent g p.stack →
      ts_parse_fill_lookahead g p = some (la, p1) →
      g.ts_parse_actions (ts_stack_top_state p.stack) la.symbol = ts_parse_action.shift s →
      ts_parse_step g fuel p = some (false, ts_lr_parser_shift p1 s) ∧
      stack_consistent g (ts_lr_parser_shift p1 s).stack) ∧
    (∀ (σ : Type) (g : Grammar σ) (fuel : Nat) (p q : ts_lr_parser_t σ),
      stack_consistent g p.stack →
      ts_lr_parser_handle_error g fuel p = some (1, q) →
      stack_consistent g q.stack) ∧
    (∀ (σ : Type) (g : Grammar σ) (stack : ts_stack) (c : ts_tree) (s : state_id),
      stack_consistent g stack →
      g.ts_parse_actions (ts_stack_top_state stack) c.symbol = ts_parse_action.shift s →
      stack_consistent g (ts_stack_push stack
        (g.ts_parse_actions (ts_stack_top_state stack) c.symbol).data_to_state (some c))) ∧
    (ts_parse (collapse_grammar 2) 20 (ts_lr_parser_make (string_input []))
        (string_input text_11p) none).map Prod.fst
      = some (some (ts_tree.node sym_expr 3 0
          [ts_tree.leaf sym_NUM 1 0, ts_tree.leaf sym_NUM 1 0, ts_tree.leaf sym_PLUS 1 0])) ∧
    stack_consistent (collapse_grammar 2) (parser_after (collapse_grammar 2) text_11p).stack ∧
    collapse_parse_actions 2 sym_PLUS = ts_parse_action.reduce sym_pair 2 [0, 0] ∧
    ∃ stack, ts_lr_parser_breakdown_stack (collapse_grammar 2) 2
        (parser_after (collapse_grammar 2) text_11p).stack (some { position := 3 })
        = some (stack, 3) ∧
      stack.toList = [{ node := some (ts_tree.leaf sym_NUM 1 0), state := 1 },
                      { node := some (ts_tree.leaf sym_NUM 1 0), state := 2 },
                      { node := some (ts_tree.leaf sym_PLUS 1 0), state := 3 }] ∧
      stack_consistent_at (collapse_grammar 2) stack 2 = false ∧
      ¬ stack_consistent (collapse_grammar 2) stack := by
  refine ⟨?_, ?_, ?_, ?_, rfl, ?_, rfl, ?_⟩
  · intro σ g s hs k hk
    omega
  · intro σ g fuel p p1 la s hcons hfill hact
    obtain ⟨hst, hla⟩ := fill_lookahead_spec g p p1 la hfill
    refine ⟨by simp [ts_parse_step, hfill, hact], ?_⟩
    show stack_consistent g (ts_stack_push p1.stack s p1.lookahead)
    rw [hla, hst]
    exact stack_consistent_push g p.stack la s hcons hact
  · intro σ g fuel p q hcons h
    obtain ⟨lexer, t, _, _, hcase⟩ :=
      handle_error_loop_result g (ts_lr_parser_error_node g p) fuel p 1 q h
    rcases hcase with ⟨h0, _, _⟩ | ⟨_, _, hun⟩
    · exact absurd h0 (by decide)
    · obtain ⟨i, s, hi, hact, _, _, hres⟩ :=
        unwind_some g p.stack (ts_lr_parser_error_node g p) t.symbol p.stack.size q.stack hun
      rw [hres]
      apply stack_consistent_push g _ _ s (stack_consistent_shrink g p.stack (i + 1) hcons hi)
      have htop : ts_stack_top_state (ts_stack_shrink p.stack (i + 1))
          = (p.stack.entries i).state := by
        simp [ts_stack_top_state, ts_stack_shrink]
      rw [htop]
      exact hact
  · intro σ g stack c s hcons hact
    rw [hact]
    exact stack_consistent_push g stack c s hcons hact
  · intro k hk
    have hsize : (parser_after (collapse_grammar 2) text_11p).stack.size = 1 := rfl
    rw [hsize] at hk
    obtain rfl : k = 0 := by omega
    rfl
  · have h : ∃ stack, ts_lr_parser_breakdown_stack (collapse_grammar 2) 2
        (parser_after (collapse_grammar 2) text_11p).stack (some { position := 3 })
        = some (stack, 3) ∧
        stack.toList = [{ node := some (ts_tree.leaf sym_NUM 1 0), state := 1 },
                        { node := some (ts_tree.leaf sym_NUM 1 0), state := 2 },
                        { node := some (ts_tree.leaf sym_PLUS 1 0), state := 3 }] ∧
        stack_consistent_at (collapse_grammar 2) stack 2 = false ∧ stack.size = 3 :=
      ⟨_, rfl, rfl, rfl, rfl⟩
    obtain ⟨stack, h1, h2, h3, h4⟩ := h
    refine ⟨stack, h1, h2, h3, ?_⟩
    intro hcons
    have h5 := hcons 2 (by omega)
    rw [h3] at h5
    exact Bool.noConfusion h5

end TreeSitter
